import Mathlib

set_option maxRecDepth 10000
set_option maxHeartbeats 1000000

/-!
Verification development for the docx form-filling engine.

Text is modelled as `List Char` (`Str`); Python strings map to character
lists, slicing maps to `take`/`drop`.  Python machine behaviour that is
external to the repository (the sha1 digest, the rapidfuzz similarity
scorer, the JSON parser of the standard library, and the language model)
is passed in as an explicit function parameter, mirroring how the design
treats those pieces as opaque capabilities.  Scores computed with Python
floats are modelled as rationals.
-/

namespace Docx

/- The rational operations of the standard library are `@[irreducible]`,
which blocks `decide`-based evaluation of concrete score computations;
re-enable unfolding locally for this development. -/
attribute [local semireducible] Rat.ofScientific Rat.mul Rat.inv Rat.add Rat.sub

abbrev Str := List Char

/-- Python whitespace test used by both `str.split()` and the regex class
for the character set handled by the templates. -/
def isPyWs (c : Char) : Bool :=
  c.isWhitespace || c = '\x0b' || c = '\x0c'

/-- Python regex word character (ASCII range of `\w`). -/
def isPyWord (c : Char) : Bool :=
  c.isAlphanum || c = '_'

/-- `str.lower` on the ASCII and Romanian letters occurring in the templates. -/
def pyLower (c : Char) : Char :=
  if c = 'Ă' then 'ă' else if c = 'Â' then 'â' else if c = 'Î' then 'î'
  else if c = 'Ș' then 'ș' else if c = 'Ț' then 'ț'
  else if c = 'Ş' then 'ş' else if c = 'Ţ' then 'ţ'
  else c.toLower

/-- NFKD decomposition followed by removal of combining marks, as a direct
character fold on the Latin/Romanian letters used by the templates. -/
def charFold (c : Char) : Char :=
  if c = 'ă' then 'a' else if c = 'â' then 'a' else if c = 'î' then 'i'
  else if c = 'ș' then 's' else if c = 'ş' then 's'
  else if c = 'ț' then 't' else if c = 'ţ' then 't'
  else c

/-- Splitter dropping empty pieces: used for `str.split()` (whitespace) and
for `re.split` on separator runs followed by filtering out empty strings.
`cur` is the reversed current token. -/
def splitDropGo (sep : Char → Bool) (cur : Str) : Str → List Str
  | [] => if cur = [] then [] else [cur.reverse]
  | c :: rest =>
    if sep c then
      if cur = [] then splitDropGo sep [] rest
      else cur.reverse :: splitDropGo sep [] rest
    else splitDropGo sep (c :: cur) rest

def splitDrop (sep : Char → Bool) (s : Str) : List Str :=
  splitDropGo sep [] s

/-- `" ".join(pieces)`. -/
def joinSp (pieces : List Str) : Str :=
  match pieces with
  | [] => []
  | p :: rest => p ++ (rest.flatMap (fun q => ' ' :: q))

/-- `_normalize_text` shared by `validate.py` and `map_spans.py`:
lowercase, strip diacritics, collapse whitespace. -/
def normalizeText (s : Str) : Str :=
  joinSp (splitDrop isPyWs (s.map (fun c => charFold (pyLower c))))

/-- `_tokens` from `map_spans.py`: split the normalized text on non-word
character runs and drop empty pieces. -/
def tokensOf (s : Str) : List Str :=
  splitDrop (fun c => !isPyWord c) (normalizeText s)

/-- Python substring membership test (`needle in hay`). -/
def isPref : Str → Str → Bool
  | [], _ => true
  | _ :: _, [] => false
  | a :: as, b :: bs => a = b && isPref as bs

def hasSub (needle : Str) : Str → Bool
  | [] => isPref needle []
  | h :: t => isPref needle (h :: t) || hasSub needle t

/-- Python string `<` (lexicographic on code points). -/
def strLt : Str → Str → Bool
  | [], [] => false
  | [], _ :: _ => true
  | _ :: _, [] => false
  | a :: as, b :: bs => a < b || (a = b && strLt as bs)

def strLe (a b : Str) : Bool := strLt a b || a = b

/-- Python `str.strip()`. -/
def pyStrip (s : Str) : Str :=
  (s.dropWhile isPyWs).reverse.dropWhile isPyWs |>.reverse

/-- `_jaccard` from `map_spans.py` (token lists are turned into sets). -/
def setInterLen (a b : List Str) : Nat :=
  (a.dedup.filter (fun t => b.contains t)).length

def setUnionLen (a b : List Str) : Nat :=
  (a ++ b).dedup.length

def jaccard (a b : List Str) : ℚ :=
  if a = [] ∨ b = [] then 0
  else (setInterLen a b : ℚ) / (max 1 (setUnionLen a b) : ℚ)

/-! ### Blank-pattern scanners (`re.finditer` over the fixed patterns) -/

/-- Length of the maximal prefix run of the character `c`. -/
def countPfx (c : Char) : Str → Nat
  | [] => 0
  | x :: xs => if x = c then countPfx c xs + 1 else 0

/-- One step of a regex alternative: a matcher reports how many characters
the pattern consumes at the head of the remaining text. -/
def scanAux (m : Str → Option Nat) : Str → Nat → List (Nat × Nat)
  | [], _ => []
  | x :: xs, off =>
    match m (x :: xs) with
    | some n => (off, off + n) :: scanAux m (xs.drop (n - 1)) (off + n)
    | none => scanAux m xs (off + 1)
termination_by l => l.length
decreasing_by
  · exact Nat.lt_succ_of_le ((xs.length_drop _).trans_le (Nat.sub_le _ _))
  · exact Nat.lt_succ_self xs.length

/-- Matcher for `c{k,}` (greedy run of at least `k` copies of `c`). -/
def runMatcher (c : Char) (k : Nat) (l : Str) : Option Nat :=
  let r := countPfx c l
  if k ≤ r then some r else none

/-- Matcher for the checkbox alternation
`(\|_\||\[\s\]|\[x\]|\[X\]|☐|☑|□)` from `extract_spans.py`. -/
def cbMatch : Str → Option Nat
  | '|' :: '_' :: '|' :: _ => some 3
  | '[' :: c :: ']' :: _ => if isPyWs c || c = 'x' || c = 'X' then some 3 else none
  | '☐' :: _ => some 1
  | '☑' :: _ => some 1
  | '□' :: _ => some 1
  | _ => none

/-- `BLANK_UNDERSCORES = re.compile(r"_\x7b2,\x7d")` matches. -/
def underscoreSpans (text : Str) : List (Nat × Nat) :=
  scanAux (runMatcher '_' 2) text 0

/-- `BLANK_DOTS = re.compile(r"\.\x7b4,\x7d")` matches. -/
def dotSpans (text : Str) : List (Nat × Nat) :=
  scanAux (runMatcher '.' 4) text 0

/-- `BLANK_ELLIPSIS = re.compile(r"…\x7b2,\x7d")` matches. -/
def ellipsisSpans (text : Str) : List (Nat × Nat) :=
  scanAux (runMatcher '…' 2) text 0

/-- `CHECKBOX_RE` matches. -/
def checkboxSpans (text : Str) : List (Nat × Nat) :=
  scanAux cbMatch text 0

/-- `_extract_spans_from_text` from `extract_spans.py`. -/
def extractSpansFromText (text : Str) : List (Nat × Nat × Str) :=
  let us := (underscoreSpans text).map (fun p => (p.1, p.2, "underscore".toList))
  let ds := (dotSpans text).map (fun p => (p.1, p.2, "dots".toList))
  let es := (ellipsisSpans text).map (fun p => (p.1, p.2, "ellipsis".toList))
  let cs := (checkboxSpans text).map (fun p => (p.1, p.2, "checkbox".toList))
  (us ++ ds ++ es ++ cs).insertionSort
    (fun a b => a.1 < b.1 ∨ (a.1 = b.1 ∧ a.2.1 ≤ b.2.1))

/-! ### Document model (`traverse.py`) -/

structure LocationD where
  type : Str
  section_idx : Option Nat
  header_footer : Option Str
  table_idx : Option Nat
  row : Option Nat
  col : Option Nat
  paragraph_idx : Option Nat
deriving DecidableEq

/-- A paragraph-like text container: its location plus the ordered run texts
of the underlying paragraph object. -/
structure Container where
  location : LocationD
  runs : List Str
deriving DecidableEq

/-- `_concat_runs`. -/
def concatRuns (c : Container) : Str := c.runs.flatten

/-- `_run_spans`: (run index, start offset, end offset) per run. -/
def runSpansAux : List Str → Nat → Nat → List (Nat × Nat × Nat)
  | [], _, _ => []
  | r :: rest, idx, cursor =>
    (idx, cursor, cursor + r.length) :: runSpansAux rest (idx + 1) (cursor + r.length)

def runSpansOf (c : Container) : List (Nat × Nat × Nat) :=
  runSpansAux c.runs 0 0

/-! ### Field spans (`extract_spans.py`) -/

structure FieldSpan where
  span_id : Str
  paragraph_idx : Option Nat
  span_index : Nat
  start_char : Nat
  end_char : Nat
  blank_kind : Str
  raw_placeholder_text : Str
  left_context : Str
  right_context : Str
  paragraph_text : Str
  location : LocationD
  run_idx_start : Option Nat
  run_idx_end : Option Nat
deriving DecidableEq

def optNatRepr : Option Nat → Str
  | none => "None".toList
  | some n => (toString n).toList

def strRepr (s : Str) : Str := '\x27' :: (s ++ ['\x27'])

def optStrRepr : Option Str → Str
  | none => "None".toList
  | some s => strRepr s

/-- The Python `f"\x7blocation\x7d"` dict formatting used inside
`_make_slot_id`. -/
def locRepr (l : LocationD) : Str :=
  "\x7b\x27type\x27: ".toList ++ strRepr l.type ++
  ", \x27section_idx\x27: ".toList ++ optNatRepr l.section_idx ++
  ", \x27header_footer\x27: ".toList ++ optStrRepr l.header_footer ++
  ", \x27table_idx\x27: ".toList ++ optNatRepr l.table_idx ++
  ", \x27row\x27: ".toList ++ optNatRepr l.row ++
  ", \x27col\x27: ".toList ++ optNatRepr l.col ++
  ", \x27paragraph_idx\x27: ".toList ++ optNatRepr l.paragraph_idx ++
  "\x7d".toList

/-- `_make_slot_id`; the sha1 hexdigest truncation is the external `hashFn`
capability. -/
def mkSlotId (hashFn : Str → Str) (location : LocationD)
    (left right kind raw : Str) : Str :=
  hashFn (locRepr location ++ '|' :: left ++ '|' :: right ++ '|' :: kind ++ '|' :: raw)

/-- The `run_idx_start` / `run_idx_end` search loop of `extract_field_spans`. -/
def findRunIdxs (rs : List (Nat × Nat × Nat)) (s e : Nat) : Option Nat × Option Nat :=
  rs.foldl
    (fun acc t =>
      let a1 := if acc.1 = none ∧ t.2.1 ≤ s ∧ s ≤ t.2.2 then some t.1 else acc.1
      let a2 := if t.2.1 ≤ e ∧ e ≤ t.2.2 then some t.1 else acc.2
      (a1, a2))
    (none, none)

/-- The per-container body of `extract_field_spans`. -/
def spansOfContainer (hashFn : Str → Str) (container : Container) : List FieldSpan :=
  let text := concatRuns container
  if text = [] then
    if container.location.table_idx ≠ none then
      [{ span_id := mkSlotId hashFn container.location [] [] "empty_cell".toList []
         paragraph_idx := container.location.paragraph_idx
         span_index := 0
         start_char := 0
         end_char := 0
         blank_kind := "empty_cell".toList
         raw_placeholder_text := []
         left_context := []
         right_context := []
         paragraph_text := []
         location := container.location
         run_idx_start := none
         run_idx_end := none }]
    else []
  else
    let rawSpans := extractSpansFromText text
    if rawSpans = [] then []
    else
      let rs := runSpansOf container
      rawSpans.enum.map (fun it =>
        let idx := it.1
        let s := it.2.1
        let e := it.2.2.1
        let kind := it.2.2.2
        let leftCtx := (text.take s).drop (s - 80)
        let rightCtx := (text.drop e).take 80
        let rawTxt := (text.take e).drop s
        let fr := findRunIdxs rs s e
        { span_id := mkSlotId hashFn container.location leftCtx rightCtx kind rawTxt
          paragraph_idx := container.location.paragraph_idx
          span_index := idx
          start_char := s
          end_char := e
          blank_kind := kind
          raw_placeholder_text := rawTxt
          left_context := leftCtx
          right_context := rightCtx
          paragraph_text := text
          location := container.location
          run_idx_start := fr.1
          run_idx_end := fr.2 })

/-- `extract_field_spans` (its `doc` argument is unused in the source). -/
def extractFieldSpans (hashFn : Str → Str) (containers : List Container) :
    List FieldSpan :=
  containers.flatMap (spansOfContainer hashFn)

/-! ### Python values (`validate.py`, `map_spans.py`, `fill_docx.py`) -/

/-- The dynamic values flowing through the pipeline (JSON scalars and
containers).  Python `bool` is a subclass of `int`, so `vBool` passes the
`isinstance(value, (int, float))` tests below just as it does in Python. -/
inductive PyVal where
  | vNone
  | vStr (s : Str)
  | vInt (n : Int)
  | vFloat (q : ℚ)
  | vBool (b : Bool)
  | vList (l : List PyVal)
  | vDict (d : List (Str × PyVal))

/-- `str(value)`; the repr of containers and floats is abstracted (it is
only ever written into the document, never inspected). -/
def pyStr : PyVal → Str
  | .vStr s => s
  | .vInt n => (toString n).toList
  | .vFloat q => (toString q).toList
  | .vBool b => if b then "True".toList else "False".toList
  | .vNone => "None".toList
  | .vList _ => "[...]".toList
  | .vDict _ => "\x7b...\x7d".toList

def isListOrDict : PyVal → Bool
  | .vList _ => true
  | .vDict _ => true
  | _ => false

/-! ### `validate.py` -/

def digitVal (c : Char) : Nat := c.toNat - 48

def natOfDigits (s : Str) : Nat := s.foldl (fun a c => a * 10 + digitVal c) 0

/-- Python `str.split(sep)` with a one-character separator (keeps empties). -/
def splitOnChar (sep : Char) : Str → List Str
  | [] => [[]]
  | c :: rest =>
    if c = sep then [] :: splitOnChar sep rest
    else
      match splitOnChar sep rest with
      | t :: ts => (c :: t) :: ts
      | [] => [[c]]

def isLeap (y : Nat) : Bool := y % 4 = 0 && (y % 100 ≠ 0 || y % 400 = 0)

def daysInMonth (y m : Nat) : Nat :=
  if m = 2 then (if isLeap y then 29 else 28)
  else if m = 4 ∨ m = 6 ∨ m = 9 ∨ m = 11 then 30
  else 31

/-- `datetime(y, m, d)` succeeds (`strptime` raises `ValueError` otherwise). -/
def validDate (y m d : Nat) : Bool :=
  1 ≤ y && 1 ≤ m && m ≤ 12 && 1 ≤ d && d ≤ daysInMonth y m

/-- The `%Y` field of `strptime`: exactly four digits. -/
def yearOk (s : Str) : Bool := s.length = 4 && s ≠ [] && s.all Char.isDigit

/-- The `%m` field: one or two digits with value 1–12. -/
def monthOk (s : Str) : Bool :=
  s ≠ [] && s.all Char.isDigit && s.length ≤ 2 &&
    1 ≤ natOfDigits s && natOfDigits s ≤ 12

/-- The `%d` field: one or two digits with value 1–31. -/
def dayOk (s : Str) : Bool :=
  s ≠ [] && s.all Char.isDigit && s.length ≤ 2 &&
    1 ≤ natOfDigits s && natOfDigits s ≤ 31

/-- `is_date` on a string: `strptime` against `%Y-%m-%d` then `%d/%m/%Y`. -/
def isDateStr (s : Str) : Bool :=
  let t := pyStrip s
  (match splitOnChar '-' t with
   | [ys, ms, ds] =>
     yearOk ys && monthOk ms && dayOk ds &&
       validDate (natOfDigits ys) (natOfDigits ms) (natOfDigits ds)
   | _ => false) ||
  (match splitOnChar '/' t with
   | [ds, ms, ys] =>
     dayOk ds && monthOk ms && yearOk ys &&
       validDate (natOfDigits ys) (natOfDigits ms) (natOfDigits ds)
   | _ => false)

def isDate : PyVal → Bool
  | .vStr s => isDateStr s
  | _ => false

def wordAt (v : Str) (i : Nat) : Bool :=
  match v[i]? with
  | some c => isPyWord c
  | none => false

/-- `\b` of the `re` module at position `p` of `v`. -/
def boundaryAt (v : Str) (p : Nat) : Bool :=
  (if p = 0 then false else wordAt v (p - 1)) != wordAt v p

def inMoneyClass (c : Char) : Bool :=
  c.isDigit || isPyWs c || c = '.' || c = ','

/-- `re.search(r"\b\d+[\d\s\.,]*\b", v)` finds a match. -/
def moneyRegexHit (v : Str) : Bool :=
  (List.range v.length).any (fun s =>
    (match v[s]? with | some c => c.isDigit | none => false) &&
    boundaryAt v s &&
    (List.range (v.length + 1)).any (fun e =>
      decide (s < e) && ((v.drop s).take (e - s)).all inMoneyClass && boundaryAt v e))

def isMoney : PyVal → Bool
  | .vInt _ => true
  | .vFloat _ => true
  | .vBool _ => true
  | .vStr s =>
    let v := s.map pyLower
    moneyRegexHit v &&
      (hasSub "lei".toList v || hasSub "ron".toList v ||
        (let c := (pyStrip v).filter (fun ch => !(ch = ',' || ch = '.'))
         c ≠ [] && c.all Char.isDigit))
  | _ => false

def isPercent : PyVal → Bool
  | .vStr s => s.contains '%'
  | _ => false

def isNumericish (v : PyVal) (maxLen : Nat := 10) : Bool :=
  match v with
  | .vInt _ => true
  | .vFloat _ => true
  | .vBool _ => true
  | .vStr s =>
    let t := pyStrip s
    if t.length > maxLen then false
    else if (splitDrop isPyWs t).length > 2 then false
    else
      let cleaned := t.filter (fun ch => !(ch = '%' || ch = '.' || ch = ','))
      cleaned ≠ [] && cleaned.all Char.isDigit
  | _ => false

def isOrgish : PyVal → Bool
  | .vStr s =>
    let v := normalizeText s
    hasSub "srl".toList v || hasSub "sa".toList v || hasSub "sc".toList v ||
    hasSub "compania".toList v || hasSub "institutia".toList v ||
    hasSub "societatea".toList v
  | _ => false

def isPersonish : PyVal → Bool
  | .vStr s =>
    let v := pyStrip s
    if v.any Char.isDigit then false
    else
      let parts := splitDrop isPyWs v
      1 ≤ parts.length && parts.length ≤ 4
  | _ => false

def isRoleTitle : PyVal → Bool
  | .vStr s =>
    let v := pyStrip s
    if v = [] then false
    else if v.any Char.isDigit then false
    else if isDateStr v then false
    else v.length ≤ 40
  | _ => false

def isAddressish : PyVal → Bool
  | .vStr s =>
    let v := pyStrip s
    if v.length < 12 then false
    else if v.contains ',' then true
    else v.any Char.isDigit
  | _ => false

inductive SlotType where
  | DATE | DATE_PARTS | MONEY | PERCENT | NUMBER | ORG_NAME | ORG_ADDRESS
  | PERSON_NAME | PERSON_ROLE | CPV_CODE | CHECKBOX_GROUP | UNKNOWN
deriving DecidableEq

/-- `SlotType.value`. -/
def slotTypeValue : SlotType → Str
  | .DATE => "DATE".toList
  | .DATE_PARTS => "DATE_PARTS".toList
  | .MONEY => "MONEY".toList
  | .PERCENT => "PERCENT".toList
  | .NUMBER => "NUMBER".toList
  | .ORG_NAME => "ORG_NAME".toList
  | .ORG_ADDRESS => "ORG_ADDRESS".toList
  | .PERSON_NAME => "PERSON_NAME".toList
  | .PERSON_ROLE => "PERSON_ROLE".toList
  | .CPV_CODE => "CPV_CODE".toList
  | .CHECKBOX_GROUP => "CHECKBOX_GROUP".toList
  | .UNKNOWN => "UNKNOWN".toList

/-- `SlotType(str)` with the `ValueError` fallback to `UNKNOWN` used in
`value_matches_type`. -/
def slotTypeOfStr (s : Str) : SlotType :=
  if s = "DATE".toList then .DATE
  else if s = "DATE_PARTS".toList then .DATE_PARTS
  else if s = "MONEY".toList then .MONEY
  else if s = "PERCENT".toList then .PERCENT
  else if s = "NUMBER".toList then .NUMBER
  else if s = "ORG_NAME".toList then .ORG_NAME
  else if s = "ORG_ADDRESS".toList then .ORG_ADDRESS
  else if s = "PERSON_NAME".toList then .PERSON_NAME
  else if s = "PERSON_ROLE".toList then .PERSON_ROLE
  else if s = "CPV_CODE".toList then .CPV_CODE
  else if s = "CHECKBOX_GROUP".toList then .CHECKBOX_GROUP
  else .UNKNOWN

/-- The combined context text `f"\x7bleft\x7d \x7bright\x7d \x7bpara\x7d"`
examined by `infer_slot_type`. -/
def slotCtxText (sp : FieldSpan) : Str :=
  sp.left_context ++ ' ' :: sp.right_context ++ ' ' :: sp.paragraph_text

def slotNorm (sp : FieldSpan) : Str := normalizeText (slotCtxText sp)

/-! Keyword-family tests of `infer_slot_type`, one per category, in the
source's priority order. -/

def condCheckbox (sp : FieldSpan) : Bool :=
  sp.blank_kind = "checkbox".toList || hasSub "|_|".toList (slotCtxText sp) ||
    (slotCtxText sp).contains '☐' || (slotCtxText sp).contains '□'

def condCpv (sp : FieldSpan) : Bool := hasSub "cpv".toList (slotNorm sp)

def condDateParts (sp : FieldSpan) : Bool :=
  hasSub "ziua".toList (slotNorm sp) || hasSub "luna".toList (slotNorm sp) ||
    hasSub "anul".toList (slotNorm sp)

def condDate (sp : FieldSpan) : Bool := hasSub "data".toList (slotNorm sp)

def condPercent (sp : FieldSpan) : Bool :=
  (slotCtxText sp).contains '%' || hasSub "procent".toList (slotNorm sp)

def condMoney (sp : FieldSpan) : Bool :=
  hasSub "suma".toList (slotNorm sp) || hasSub "lei".toList (slotNorm sp) ||
    hasSub "valoare".toList (slotNorm sp) || hasSub "tva".toList (slotNorm sp) ||
    hasSub "taxa".toList (slotNorm sp)

def condAddress (sp : FieldSpan) : Bool :=
  hasSub "adresa".toList (slotNorm sp) || hasSub "sediu".toList (slotNorm sp) ||
    hasSub "domiciliu".toList (slotNorm sp) || hasSub "strada".toList (slotNorm sp) ||
    hasSub "judet".toList (slotNorm sp)

def condRole (sp : FieldSpan) : Bool :=
  hasSub "in calitate de".toList (slotNorm sp) || hasSub "functie".toList (slotNorm sp) ||
    hasSub "reprezentant".toList (slotNorm sp) ||
    hasSub "imputernicit".toList (slotNorm sp)

def condPerson (sp : FieldSpan) : Bool :=
  hasSub "subsemnatul".toList (slotNorm sp) || hasSub "dl".toList (slotNorm sp) ||
    hasSub "dna".toList (slotNorm sp) || hasSub "nume".toList (slotNorm sp)

def condOrg (sp : FieldSpan) : Bool :=
  hasSub "ofertant".toList (slotNorm sp) ||
    hasSub "operator economic".toList (slotNorm sp) ||
    hasSub "contractant".toList (slotNorm sp) ||
    hasSub "societate".toList (slotNorm sp) || hasSub "srl".toList (slotNorm sp) ||
    hasSub "sa".toList (slotNorm sp) || hasSub "s.c".toList (slotNorm sp)

def condNumber (sp : FieldSpan) : Bool :=
  hasSub "nr".toList (slotNorm sp) || hasSub "numar".toList (slotNorm sp) ||
    hasSub "cod".toList (slotNorm sp) || hasSub "serie".toList (slotNorm sp) ||
    hasSub "cif".toList (slotNorm sp) || hasSub "cui".toList (slotNorm sp)

/-- `infer_slot_type` from `validate.py`. -/
def inferSlotType (sp : FieldSpan) : SlotType :=
  if condCheckbox sp then .CHECKBOX_GROUP
  else if condCpv sp then .CPV_CODE
  else if condDateParts sp then .DATE_PARTS
  else if condDate sp then .DATE
  else if condPercent sp then .PERCENT
  else if condMoney sp then .MONEY
  else if condAddress sp then .ORG_ADDRESS
  else if condRole sp then .PERSON_ROLE
  else if condPerson sp then .PERSON_NAME
  else if condOrg sp then .ORG_NAME
  else if condNumber sp then .NUMBER
  else .UNKNOWN

/-- `re.search(r"\b\d\x7b8\x7d-\d\b", s)` finds a match. -/
def cpvRegexHit (s : Str) : Bool :=
  (List.range (s.length + 1)).any (fun p =>
    boundaryAt s p &&
    ((s.drop p).take 8).length = 8 && ((s.drop p).take 8).all Char.isDigit &&
    (match s[p + 8]? with | some c => c = '-' | none => false) &&
    (match s[p + 9]? with | some c => c.isDigit | none => false) &&
    boundaryAt s (p + 10))

/-- `value_matches_type` against a `SlotType`. -/
def valueMatchesType (v : PyVal) (t : SlotType) : Bool :=
  match t with
  | .UNKNOWN => true
  | .DATE => isDate v
  | .DATE_PARTS => isNumericish v 4 && !isDate v
  | .MONEY => isMoney v
  | .PERCENT => isPercent v && isNumericish (.vStr ((pyStr v).filter (fun c => c ≠ '%'))) 6
  | .NUMBER => isNumericish v 12
  | .ORG_NAME => isOrgish v
  | .ORG_ADDRESS => isAddressish v
  | .PERSON_NAME => isPersonish v
  | .PERSON_ROLE => isRoleTitle v
  | .CPV_CODE => match v with | .vStr s => cpvRegexHit s | _ => false
  | .CHECKBOX_GROUP => match v with | .vStr _ => true | _ => false

/-- `value_matches_type` when called with a string slot type. -/
def valueMatchesTypeStr (v : PyVal) (s : Str) : Bool :=
  valueMatchesType v (slotTypeOfStr s)

/-! ### Association lists standing in for Python dicts -/

def alookup {κ α : Type} [DecidableEq κ] (k : κ) : List (κ × α) → Option α
  | [] => none
  | p :: rest => if p.1 = k then some p.2 else alookup k rest

/-- Dict assignment `d[k] = v`: replace in place or append. -/
def aupdate {κ α : Type} [DecidableEq κ] (k : κ) (v : α) :
    List (κ × α) → List (κ × α)
  | [] => [(k, v)]
  | p :: rest => if p.1 = k then (k, v) :: rest else p :: aupdate k v rest

/-! ### `docx_io/fill_text.py` -/

/-- The `run_spans` list built inside `replace_span_across_runs`. -/
def runIntervals : List Str → Nat → List (Nat × Nat)
  | [], _ => []
  | r :: rest, off => (off, off + r.length) :: runIntervals rest (off + r.length)

/-- The run-location loop with its early `break` once the end run is found. -/
def locateRuns (sStart sEnd : Int) :
    List (Nat × Nat) → Option Nat → Nat → Option Nat × Option Nat
  | [], si, _ => (si, none)
  | (s, e) :: rest, si, idx =>
    let si' :=
      if si = none ∧ (s : Int) ≤ sStart ∧ sStart < (e : Int) then some idx else si
    if (s : Int) < sEnd ∧ sEnd ≤ (e : Int) then (si', some idx)
    else locateRuns sStart sEnd rest si' (idx + 1)

/-- Text of the start run after the segment loop: first segment, then each
further segment appended behind an explicit line break (`run.add_break()`
contributes a newline to the run text). -/
def joinSegs : List Str → Str
  | [] => []
  | s0 :: rest => s0 ++ rest.flatMap (fun seg => '\n' :: seg)

/-- The per-run body of the replacement loop of `replace_span_across_runs`:
given the located start/end run indices, the span endpoints and the
newline-split replacement segments, computes run `idx`'s new text from its
interval start `s` and old text `rt`. -/
def replRun (si ei : Nat) (spanStart spanEnd : Int) (segs : List Str)
    (it : Nat × ((Nat × Nat) × Str)) : Str :=
  let idx := it.1
  let s := it.2.1.1
  let rt := it.2.2
  if idx < si ∨ ei < idx then rt
  else
    let pre := rt.take (spanStart - (s : Int)).toNat
    let suf := rt.drop (spanEnd - (s : Int)).toNat
    if idx = si then pre ++ joinSegs segs ++ (if si = ei then suf else [])
    else if idx = ei then suf
    else []

/-- `replace_span_across_runs` from `docx_io/fill_text.py`.  Returns the
success flag and the run texts after the call (unchanged on failure, as the
source returns before any mutation). -/
def replaceSpanAcrossRuns (runs : List Str) (spanStart spanEnd : Int)
    (repl : Str) : Bool × List Str :=
  if runs.isEmpty || spanStart ≥ spanEnd then (false, runs)
  else
    let fullText := runs.flatten
    if spanStart < 0 || spanEnd > (fullText.length : Int) then (false, runs)
    else
      match locateRuns spanStart spanEnd (runIntervals runs 0) none 0 with
      | (some si, some ei) =>
        let segs := splitOnChar '\n' repl
        (true, ((runIntervals runs 0).zip runs).enum.map
          (replRun si ei spanStart spanEnd segs))
      | _ => (false, runs)

/-! ### `fill_docx.py` -/

structure SuspEntry where
  span_id : Str
  slot_type : Str
  value : PyVal
  reason : Str

structure FillCtx where
  mapping : List (Str × Option Str)
  dataNorm : List (Str × PyVal)
  computedValues : List (Str × PyVal)
  expectedTypes : List (Str × Str)

/-- Mutable state threaded through `fill_spans_in_docx`: the document's
containers (run texts get rewritten in place), the sibling paragraphs
spawned by multi-line values (recorded in call order, keyed by container
index), the fill counter and the suspicious list. -/
structure FillState where
  containers : List Container
  inserted : List (Nat × Str)
  filled : Nat
  suspicious : List SuspEntry

def runsAt (st : FillState) (cidx : Nat) : List Str :=
  ((st.containers.get? cidx).map Container.runs).getD []

def setRunsAt (st : FillState) (cidx : Nat) (runs : List Str) : FillState :=
  match st.containers.get? cidx with
  | none => st
  | some c => { st with containers := st.containers.set cidx { c with runs := runs } }

/-- `_placeholder_only`. -/
def placeholderOnly (runs : List Str) (raw : Str) : Bool :=
  pyStrip runs.flatten = pyStrip raw

/-- The loop body of `fill_spans_in_docx` for one span of one container.
`SystemExit` on a type mismatch is the `Except.error` outcome. -/
def fillOneSpan (ctx : FillCtx) (st : FillState) (cidx : Nat) (sp : FieldSpan) :
    Except Str FillState :=
  if sp.span_id = [] then .ok st
  else
    match (alookup sp.span_id ctx.mapping).getD none with
    | none => .ok st
    | some key =>
      if key = [] then .ok st
      else
        let value? :=
          if key = "__computed__".toList then alookup sp.span_id ctx.computedValues
          else alookup key ctx.dataNorm
        match (match value? with | some .vNone => none | other => other) with
        | none => .ok st
        | some value =>
          if alookup sp.span_id ctx.expectedTypes = some "DURATION_DAYS".toList ∧
              isDate value then
            .error "DATE value in DURATION_DAYS span".toList
          else if alookup sp.span_id ctx.expectedTypes = some "PERSON_NAME".toList ∧
              isMoney value then
            .error "MONEY value in Subsemnatul span".toList
          else
            let slotTy := slotTypeValue (inferSlotType sp)
            let st :=
              if !valueMatchesTypeStr value slotTy then
                { st with suspicious := st.suspicious ++
                    [{ span_id := sp.span_id, slot_type := slotTy, value := value,
                       reason := "value does not match slot_type".toList }] }
              else st
            let runs := runsAt st cidx
            let raw := sp.raw_placeholder_text
            let valueText := pyStr value
            if valueText.contains '\n' ∧ placeholderOnly runs raw then
              let lines := splitOnChar '\n' valueText
              let res := replaceSpanAcrossRuns runs (sp.start_char : Int)
                (sp.end_char : Int) (lines.headD [])
              if res.1 then
                let st := setRunsAt st cidx res.2
                let st := { st with
                  inserted := st.inserted ++ lines.tail.map (fun l => (cidx, l)) }
                let st :=
                  if raw ≠ [] ∧ hasSub raw res.2.flatten then
                    { st with suspicious := st.suspicious ++
                        [{ span_id := sp.span_id, slot_type := slotTy, value := value,
                           reason := "placeholder remains after fill".toList }] }
                  else st
                .ok { st with filled := st.filled + 1 }
              else .ok st
            else
              let res := replaceSpanAcrossRuns runs (sp.start_char : Int)
                (sp.end_char : Int) valueText
              if res.1 then
                let st := setRunsAt st cidx res.2
                let st :=
                  if raw ≠ [] ∧ hasSub raw res.2.flatten then
                    { st with suspicious := st.suspicious ++
                        [{ span_id := sp.span_id, slot_type := slotTy, value := value,
                           reason := "placeholder remains after fill".toList }] }
                  else st
                .ok { st with filled := st.filled + 1 }
              else .ok st

/-- Fold of `fillOneSpan` over one container's spans; a raised
`SystemExit` aborts the whole fill. -/
def fillSpansGo (ctx : FillCtx) (st : FillState) (cidx : Nat) :
    List FieldSpan → Except Str FillState
  | [] => .ok st
  | sp :: rest =>
    match fillOneSpan ctx st cidx sp with
    | .error e => .error e
    | .ok st' => fillSpansGo ctx st' cidx rest

/-- `location_map`: last container index per location tuple. -/
def locationMap (containers : List Container) : List (LocationD × Nat) :=
  (containers.enum.foldl (fun m it => aupdate it.2.location it.1 m) [])

/-- `spans_by_container.setdefault(...).append(...)`. -/
def groupAdd (groups : List (Nat × List FieldSpan)) (k : Nat) (sp : FieldSpan) :
    List (Nat × List FieldSpan)
  := match groups with
  | [] => [(k, [sp])]
  | g :: rest => if g.1 = k then (k, g.2 ++ [sp]) :: rest else g :: groupAdd rest k sp

/-- One step of the grouping loop: skip checkbox spans and spans whose
location has no container, otherwise append to the owning container's
group. -/
def sbcStep (lmap : List (LocationD × Nat)) (gs : List (Nat × List FieldSpan))
    (sp : FieldSpan) : List (Nat × List FieldSpan) :=
  if sp.blank_kind = "checkbox".toList then gs
  else
    match alookup sp.location lmap with
    | none => gs
    | some cidx => groupAdd gs cidx sp

/-- Group the non-checkbox spans by the container owning their location. -/
def spansByContainer (doc : List Container) (spans : List FieldSpan) :
    List (Nat × List FieldSpan) :=
  spans.foldl (sbcStep (locationMap doc)) []

/-- Descending, stable sort by `start_char` (`sort(..., reverse=True)`). -/
def sortSpansDesc (l : List FieldSpan) : List FieldSpan :=
  l.insertionSort (fun a b => b.start_char ≤ a.start_char)

def fillGroups (ctx : FillCtx) (st : FillState) :
    List (Nat × List FieldSpan) → Except Str FillState
  | [] => .ok st
  | g :: rest =>
    match fillSpansGo ctx st g.1 (sortSpansDesc g.2) with
    | .error e => .error e
    | .ok st' => fillGroups ctx st' rest

/-- `fill_spans_in_docx` from `fill_docx.py`. -/
def fillSpansInDocx (doc : List Container) (spans : List FieldSpan)
    (mapping : List (Str × Option Str)) (dataNorm : List (Str × PyVal))
    (computedValues : List (Str × PyVal)) (expectedTypes : List (Str × Str)) :
    Except Str FillState :=
  let ctx : FillCtx :=
    { mapping := mapping, dataNorm := dataNorm,
      computedValues := computedValues, expectedTypes := expectedTypes }
  fillGroups ctx
    { containers := doc, inserted := [], filled := 0, suspicious := [] }
    (spansByContainer doc spans)

/-! ### `map_spans.py` -/

structure Cand where
  key : Str
  score : ℚ
deriving DecidableEq

/-- `re.search(r"\bnr\b", v)` finds a match. -/
def nrRegexHit (v : Str) : Bool :=
  (List.range (v.length + 1)).any (fun p =>
    boundaryAt v p && isPref "nr".toList (v.drop p) && boundaryAt v (p + 2))

/-- The context-driven boost token list of `_candidate_scores`, in
construction order. -/
def boostsFor (normContext : Str) : List (Str × ℚ) :=
  (if hasSub "catre".toList normContext then
    [("catre".toList, (2 : ℚ)/10), ("autoritate".toList, (2 : ℚ)/10)] else []) ++
  (if hasSub "cif".toList normContext then [("cif".toList, (3 : ℚ)/10)] else []) ++
  (if hasSub "cod cpv".toList normContext || hasSub "cpv".toList normContext then
    [("cpv".toList, (3 : ℚ)/10)] else []) ++
  (if nrRegexHit normContext then
    [("nr".toList, (15 : ℚ)/100), ("numar".toList, (15 : ℚ)/100)] else []) ++
  (if hasSub "valabila".toList normContext && hasSub "pana la data".toList normContext then
    [("data expir".toList, (2 : ℚ)/10), ("valabil".toList, (2 : ℚ)/10),
     ("durata".toList, (15 : ℚ)/100)] else [])

/-- The sort order of `_candidate_scores`:
`results.sort(key=lambda r: (-r["score"], r["key"]))`. -/
def candLe (a b : Cand) : Bool :=
  decide (b.score < a.score) || (decide (a.score = b.score) && strLe a.key b.key)

/-- `_candidate_scores`; the rapidfuzz `token_set_ratio` scorer is the
external `tsr` capability (a score in 0–100). -/
def candidateScores (tsr : Str → Str → ℚ) (slot : FieldSpan)
    (dataKeys : List Str) (dataNorm : List (Str × PyVal)) : List Cand :=
  let context := slot.left_context ++ ' ' :: slot.right_context
  let normContext := normalizeText context
  let contextTokens := tokensOf context
  let boosts := boostsFor normContext
  let results := dataKeys.filterMap (fun key =>
    let value := (alookup key dataNorm).getD .vNone
    if isListOrDict value then none
    else if !valueMatchesType value (inferSlotType slot) then none
    else
      let normKey := normalizeText key
      let keyTokens := tokensOf key
      let scoreJ := jaccard contextTokens keyTokens
      let scoreF := tsr normContext normKey / 100
      let base := (55 : ℚ)/100 * scoreF + (45 : ℚ)/100 * scoreJ
      let score := boosts.foldl
        (fun acc b => if hasSub b.1 normKey then acc + b.2 else acc) base
      some { key := key, score := score })
  (results.insertionSort (fun a b => candLe a b = true)).take 5

/-- Ascending, stable sort of spans by `start_char`. -/
def sortSpansAsc (l : List FieldSpan) : List FieldSpan :=
  l.insertionSort (fun a b => a.start_char ≤ b.start_char)

/-- `_expected_types_for_paragraph`. -/
def expectedTypesForParagraph (text : Str) (spans : List FieldSpan) :
    List (Str × Str) :=
  let norm := normalizeText text
  let expected0 : List (Str × Str) :=
    if hasSub "durata de".toList norm && hasSub "zile".toList norm &&
        hasSub "pana la data".toList norm then
      match sortSpansAsc spans with
      | s0 :: s1 :: _ =>
        aupdate s1.span_id "DATE".toList (aupdate s0.span_id "NUMBER".toList [])
      | _ => []
    else []
  spans.foldl (fun exp sp =>
    if sp.span_id = [] then exp
    else if (alookup sp.span_id exp).isSome then exp
    else if hasSub "subsemnatul".toList norm then
      aupdate sp.span_id "PERSON_NAME".toList exp
    else if hasSub "catre".toList norm then
      aupdate sp.span_id "ADDRESSEE".toList exp
    else if hasSub "ofertantul".toList norm then
      aupdate sp.span_id "ORG_NAME".toList exp
    else if hasSub "tva".toList norm ||
        hasSub "taxa pe valoarea adaugata".toList norm then
      aupdate sp.span_id "MONEY".toList exp
    else if hasSub "in calitate de".toList norm then
      aupdate sp.span_id "ROLE_TITLE".toList exp
    else if hasSub "oferta pentru si in numele".toList norm then
      aupdate sp.span_id "ORG_NAME".toList exp
    else exp) expected0

/-- `_type_check`. -/
def typeCheck (expectedType : Option Str) (value : PyVal) (slot : FieldSpan) : Bool :=
  match expectedType with
  | none => valueMatchesType value (inferSlotType slot)
  | some et =>
    if et = "DURATION_DAYS".toList then isNumericish value 10 && !isDate value
    else if et = "DATE_UNTIL".toList then isDate value
    else if et = "PERSON_NAME".toList then isPersonish value
    else if et = "ORG_NAME".toList then isOrgish value
    else if et = "MONEY".toList then isMoney value
    else if et = "ROLE_TITLE".toList then isRoleTitle value
    else if et = "ADDRESSEE".toList then
      (isOrgish value || isAddressish value) && !isDate value
    else valueMatchesTypeStr value et

/-- `_parse_date`: the two `strptime` formats, returning (year, month, day). -/
def parseDateStr (t : Str) : Option (Nat × Nat × Nat) :=
  match splitOnChar '-' t with
  | [ys, ms, ds] =>
    if yearOk ys && monthOk ms && dayOk ds &&
        validDate (natOfDigits ys) (natOfDigits ms) (natOfDigits ds) then
      some (natOfDigits ys, natOfDigits ms, natOfDigits ds)
    else none
  | _ =>
    match splitOnChar '/' t with
    | [ds, ms, ys] =>
      if dayOk ds && monthOk ms && yearOk ys &&
          validDate (natOfDigits ys) (natOfDigits ms) (natOfDigits ds) then
        some (natOfDigits ys, natOfDigits ms, natOfDigits ds)
      else none
    | _ => none

def parseDate : PyVal → Option (Nat × Nat × Nat)
  | .vStr s => parseDateStr (pyStrip s)
  | _ => none

/-- Day number of a calendar date (days-from-civil); subtraction of two of
these is exactly `(datetime - datetime).days` for midnight datetimes. -/
def rataDie (y m d : Nat) : Int :=
  let yAdj : Nat := if m ≤ 2 then y - 1 else y
  let era : Nat := yAdj / 400
  let yoe : Nat := yAdj % 400
  let mp : Nat := (m + 9) % 12
  let doy : Nat := (153 * mp + 2) / 5 + d - 1
  let doe : Nat := yoe * 365 + yoe / 4 - yoe / 100 + doy
  (era : Int) * 146097 + (doe : Int) - 719468

/-! ### The external inference capability (`llm/hf_model.py`) and JSON -/

/-- The language model seen through its narrow interface: availability and
a deterministic prompt-to-response function. -/
structure HFM where
  availableB : Bool
  generate : Str → Str

/-- Parsed JSON values (`json.loads` results). -/
inductive PyJson where
  | jNull
  | jBool (b : Bool)
  | jNum (q : ℚ)
  | jStr (s : Str)
  | jArr (l : List PyJson)
  | jObj (fields : List (Str × PyJson))

/-- Model of `float(str)` on plain decimal literals; other accepted Python
forms are irrelevant here (failures map to `none`, i.e. `ValueError`). -/
def parseFloatQ (s : Str) : Option ℚ :=
  let t := pyStrip s
  let core := fun (u : Str) (sign : ℚ) =>
    match splitOnChar '.' u with
    | [w] => if w ≠ [] && w.all Char.isDigit then some (sign * natOfDigits w) else none
    | [w, f] =>
      if (w ≠ [] || f ≠ []) && w.all Char.isDigit && f.all Char.isDigit then
        some (sign * ((natOfDigits w : ℚ) + (natOfDigits f : ℚ) / (10 ^ f.length : ℚ)))
      else none
    | _ => none
  match t with
  | '-' :: rest => core rest (-1)
  | '+' :: rest => core rest 1
  | _ => core t 1

/-- `float(conf)` with the `(TypeError, ValueError)` fallback to `0.0`. -/
def confToQ : Option PyJson → ℚ
  | some (.jNum q) => q
  | some (.jBool b) => if b then 1 else 0
  | some (.jStr s) => (parseFloatQ s).getD 0
  | _ => 0

/-- The prompt of `_llm_choose_key` (opaque input of `generate`). -/
def chPrompt (span : FieldSpan) (slotType : Str) (candKeys : List Str) : Str :=
  "Return ONLY strict JSON with schema: best_key/confidence/reason_short. ".toList ++
  "Slot type: ".toList ++ slotType ++
  " Context left: ".toList ++ span.left_context ++
  " Context right: ".toList ++ span.right_context ++
  " Keys: ".toList ++ joinSp ((candKeys.take 30).map (fun k => k ++ [',']))

/-- `_llm_choose_key` from `map_spans.py`; `jl` is the `json.loads`
capability (`none` is a `JSONDecodeError`). -/
def llmChooseKey (jl : Str → Option PyJson) (model : Option HFM)
    (span : FieldSpan) (slotType : Str) (candKeys : List Str) :
    Option (Str × ℚ × Option PyJson) :=
  match model with
  | none => none
  | some m =>
    if !m.availableB then none
    else
      let response := m.generate (chPrompt span slotType candKeys)
      match jl response with
      | some (.jObj fields) =>
        match alookup "best_key".toList fields with
        | some (.jStr bk) =>
          if candKeys.contains bk then
            some (bk, confToQ (alookup "confidence".toList fields),
              alookup "reason_short".toList fields)
          else none
        | _ => none
      | _ => none

/-! ### `map_field_spans` -/

structure TMEntry where
  span_id : Str
  key : Str
  expected_type : Option Str
  value : PyVal

structure MapResult where
  mapping : List (Str × Option Str)
  candidates : List (Str × List Cand)
  computedValues : List (Str × PyVal)
  expectedTypes : List (Str × Str)
  unmatched : List FieldSpan
  typeMismatchPrevented : List TMEntry

/-- The external similarity capabilities used by `map_field_spans`:
rapidfuzz `token_set_ratio`, rapidfuzz `process.extract` with `WRatio`
(choice, score, index triples), and `json.loads`. -/
structure MapOracles where
  tsr : Str → Str → ℚ
  wExtract : Str → List Str → List (Str × ℚ × Nat)
  jsonLoads : Str → Option PyJson

def paraKey (sp : FieldSpan) :
    Str × Option Nat × Option Str × Option Nat × Option Nat :=
  (sp.location.type, sp.location.section_idx, sp.location.header_footer,
    sp.location.table_idx, sp.paragraph_idx)

/-- `dict.setdefault(key, []).append(x)` grouping, generic in the key. -/
def gadd {κ : Type} [DecidableEq κ] (groups : List (κ × List FieldSpan))
    (k : κ) (sp : FieldSpan) : List (κ × List FieldSpan) :=
  match groups with
  | [] => [(k, [sp])]
  | g :: rest => if g.1 = k then (k, g.2 ++ [sp]) :: rest else g :: gadd rest k sp

/-- The effective score of a candidate inside the greedy selection loop:
the raw score less the reuse penalties of `map_field_spans`. -/
def effScore (usedKeys : List (Str × List Str)) (repeatableKeys : List Str)
    (ctxTokens : List Str) (c : Cand) : ℚ :=
  if (alookup c.key usedKeys).isSome && !repeatableKeys.contains c.key then
    let afterFirst := c.score - (25 : ℚ)/100
    match alookup c.key usedKeys with
    | some existing =>
      if existing ≠ [] && jaccard ctxTokens existing < (3 : ℚ)/10 then
        afterFirst - (25 : ℚ)/100
      else afterFirst
    | none => afterFirst
  else c.score

/-- One iteration of the candidate-selection loop of `map_field_spans`:
skip empty or list/dict-valued keys, log type-check rejections, otherwise
keep the greedy maximum of the effective score under a strict improvement
test. -/
def cbkStep (dataNorm : List (Str × PyVal)) (expectedType : Option Str)
    (sp : FieldSpan) (usedKeys : List (Str × List Str))
    (repeatableKeys : List Str) (ctxTokens : List Str)
    (acc : Option Str × ℚ × List TMEntry) (c : Cand) :
    Option Str × ℚ × List TMEntry :=
  if c.key = [] then acc
  else
    let value := (alookup c.key dataNorm).getD .vNone
    if isListOrDict value then acc
    else if !typeCheck expectedType value sp then
      (acc.1, acc.2.1, acc.2.2 ++
        [{ span_id := sp.span_id, key := c.key,
           expected_type := expectedType, value := value }])
    else
      let score := effScore usedKeys repeatableKeys ctxTokens c
      if acc.2.1 < score then (some c.key, score, acc.2.2)
      else acc

/-- A candidate survives the skip guards of the selection loop: non-empty
key, value neither list nor dict, and the type check accepts it. -/
def candPasses (dataNorm : List (Str × PyVal)) (expectedType : Option Str)
    (sp : FieldSpan) (c : Cand) : Bool :=
  c.key ≠ [] &&
  !isListOrDict ((alookup c.key dataNorm).getD .vNone) &&
  typeCheck expectedType ((alookup c.key dataNorm).getD .vNone) sp

/-- The candidate-selection loop of `map_field_spans` for one span: greedy
maximum of the effective score with a strict improvement test, logging
type-check rejections. -/
def chooseBestKey (dataNorm : List (Str × PyVal)) (expectedType : Option Str)
    (sp : FieldSpan) (usedKeys : List (Str × List Str))
    (repeatableKeys : List Str) (ctxTokens : List Str) (cands : List Cand) :
    Option Str × ℚ × List TMEntry :=
  cands.foldl (cbkStep dataNorm expectedType sp usedKeys repeatableKeys ctxTokens)
    (none, -1, [])

/-- State threaded through the greedy assignment loop. -/
structure AssignState where
  mapping : List (Str × Option Str)
  usedKeys : List (Str × List Str)
  tmp : List TMEntry

def mget (mapping : List (Str × Option Str)) (sid : Str) : Option Str :=
  (alookup sid mapping).getD none

/-- Repeatable-key test (`repeatable_keys` set construction). -/
def isRepeatableKey (keyNorms : List (Str × Str)) (k : Str) : Bool :=
  hasSub "data completarii".toList ((alookup k keyNorms).getD []) ||
  hasSub "data completare".toList ((alookup k keyNorms).getD [])

/-- One step of the first (candidate-collection) pass of `map_field_spans`. -/
def candStep (ora : MapOracles) (dataKeys : List Str)
    (dataNorm : List (Str × PyVal)) (keyNorms : List (Str × Str))
    (acc : List (Str × List Cand) × List (Str × List Str)) (sp : FieldSpan) :
    List (Str × List Cand) × List (Str × List Str) :=
  if sp.span_id = [] then acc
  else if sp.blank_kind = "checkbox".toList then acc
  else
    let context := sp.left_context ++ ' ' :: sp.right_context
    let ctxToks := aupdate sp.span_id (tokensOf context) acc.2
    let h := candidateScores ora.tsr sp dataKeys dataNorm
    let h :=
      if h = [] then
        (ora.wExtract (normalizeText context) (keyNorms.map (fun p => p.2))).map
          (fun t => { key := (dataKeys.get? t.2.2).getD [], score := t.2.1 / 100 })
      else h
    (aupdate sp.span_id h acc.1, ctxToks)

/-- One step of the greedy assignment loop of `map_field_spans`. -/
def assignStep (ora : MapOracles) (model : Option HFM)
    (dataNorm : List (Str × PyVal)) (expectedTypes : List (Str × Str))
    (candidatesBySpan : List (Str × List Cand))
    (spanCtxTokens : List (Str × List Str)) (spanMap : List (Str × FieldSpan))
    (repeatableKeys : List Str) (st : AssignState) (so : Str × ℚ) : AssignState :=
  let sid := so.1
  match alookup sid spanMap with
  | none => st
  | some sp =>
    let expectedType := alookup sid expectedTypes
    let cl := (alookup sid candidatesBySpan).getD []
    if cl = [] then { st with mapping := aupdate sid none st.mapping }
    else
      let ctxToks := (alookup sid spanCtxTokens).getD []
      let sel := chooseBestKey dataNorm expectedType sp st.usedKeys
        repeatableKeys ctxToks cl
      let st1 : AssignState := { st with tmp := st.tmp ++ sel.2.2 }
      match sel.1 with
      | none => { st1 with mapping := aupdate sid none st1.mapping }
      | some bk =>
        let top1 := ((cl.get? 0).map Cand.score).getD 0
        let top2 := ((cl.get? 1).map Cand.score).getD 0
        let ambiguous := top1 - top2 < (8 : ℚ)/100
        let bestKey :=
          if ambiguous && model.isSome then
            match llmChooseKey ora.jsonLoads model sp
              (slotTypeValue (inferSlotType sp)) (cl.map (fun c => c.key)) with
            | some pick =>
              let v := (alookup pick.1 dataNorm).getD .vNone
              if !isListOrDict v && typeCheck expectedType v sp then pick.1
              else bk
            | none => bk
          else bk
        let st2 : AssignState :=
          { st1 with mapping := aupdate sid (some bestKey) st1.mapping }
        if bestKey ≠ [] && !repeatableKeys.contains bestKey then
          { st2 with usedKeys := aupdate bestKey ctxToks st2.usedKeys }
        else st2

/-- The `data completarii` scan of the second pass: the first key whose
normalization matches and whose value parses as a date (the loop keeps
overwriting on parse failure). -/
def findDataCompl (dataKeys : List Str) (keyNorms : List (Str × Str))
    (dataNorm : List (Str × PyVal)) : Option (Option (Nat × Nat × Nat)) :=
  dataKeys.foldl
    (fun found k =>
      match found with
      | some (some d) => some (some d)
      | _ =>
        if isRepeatableKey keyNorms k then
          some (parseDate ((alookup k dataNorm).getD .vNone))
        else found)
    none

/-- One step of the second (computed-duration) pass of `map_field_spans`. -/
def durationStep (dataKeys : List Str) (keyNorms : List (Str × Str))
    (dataNorm : List (Str × PyVal)) (expectedTypes : List (Str × Str))
    (acc : List (Str × Option Str) × List (Str × PyVal))
    (g : (Str × Option Nat × Option Str × Option Nat × Option Nat) × List FieldSpan) :
    List (Str × Option Str) × List (Str × PyVal) :=
  match sortSpansAsc g.2 with
  | [] => acc
  | g0 :: rest =>
    if !hasSub "durata de".toList (normalizeText g0.paragraph_text) then acc
    else
      match rest with
      | [] => acc
      | g1 :: _ =>
        let sidD := g0.span_id
        let sidT := g1.span_id
        if alookup sidD expectedTypes ≠ some "DURATION_DAYS".toList ∧
            alookup sidD expectedTypes ≠ some "NUMBER".toList then acc
        else if (match mget acc.1 sidD with
                 | some k => decide (k ≠ [])
                 | none => false) = true then acc
        else
          let dateValue := match mget acc.1 sidT with
            | some dk => if dk = [] then none else alookup dk dataNorm
            | none => none
          match (dateValue.map parseDate).getD none,
              findDataCompl dataKeys keyNorms dataNorm with
          | some u, some (some c) =>
            let days := rataDie u.1 u.2.1 u.2.2 - rataDie c.1 c.2.1 c.2.2
            if 0 ≤ days then
              (aupdate sidD (some "__computed__".toList) acc.1,
               aupdate sidD (.vStr (toString days.toNat).toList) acc.2)
            else acc
          | _, _ => acc

/-- `map_field_spans` from `map_spans.py` (the `random.seed(seed)` call has
no further use of the generator and is dropped). -/
def mapFieldSpans (ora : MapOracles) (model : Option HFM)
    (spans : List FieldSpan) (dataNorm : List (Str × PyVal)) : MapResult :=
  let dataKeys := dataNorm.map (fun p => p.1)
  let keyNorms : List (Str × Str) := dataKeys.map (fun k => (k, normalizeText k))
  let spansByPara := spans.foldl (fun gs sp => gadd gs (paraKey sp) sp) []
  let expectedTypes := spansByPara.foldl
    (fun exp g =>
      let ptext := match g.2 with | s :: _ => s.paragraph_text | [] => []
      (expectedTypesForParagraph ptext g.2).foldl
        (fun e p => aupdate p.1 p.2 e) exp)
    []
  let repeatableKeys := dataKeys.filter (isRepeatableKey keyNorms)
  let sortedSpans := spans.insertionSort (fun a b => strLe a.span_id b.span_id = true)
  let step1 := sortedSpans.foldl (candStep ora dataKeys dataNorm keyNorms) ([], [])
  let candidatesBySpan := step1.1
  let spanCtxTokens := step1.2
  let spanOrder := (sortedSpans.filterMap (fun sp =>
      if sp.span_id = [] then none
      else if sp.blank_kind = "checkbox".toList then none
      else
        let cl := (alookup sp.span_id candidatesBySpan).getD []
        let top1 := ((cl.get? 0).map Cand.score).getD 0
        let top2 := ((cl.get? 1).map Cand.score).getD 0
        some (sp.span_id, top1 - top2))).insertionSort
    (fun a b => b.2 < a.2 ∨ (a.2 = b.2 ∧ strLe a.1 b.1 = true))
  let spanMap := sortedSpans.foldl (fun m sp => aupdate sp.span_id sp m) []
  let assignRes := spanOrder.foldl
    (assignStep ora model dataNorm expectedTypes candidatesBySpan
      spanCtxTokens spanMap repeatableKeys)
    { mapping := [], usedKeys := [], tmp := [] }
  let secondPass := spansByPara.foldl
    (durationStep dataKeys keyNorms dataNorm expectedTypes)
    (assignRes.mapping, [])
  let unmatched := spans.filter (fun s =>
    (match mget secondPass.1 s.span_id with
     | some k => decide (k = [])
     | none => true) && s.blank_kind ≠ "checkbox".toList)
  { mapping := secondPass.1
    candidates := candidatesBySpan
    computedValues := secondPass.2
    expectedTypes := expectedTypes
    unmatched := unmatched
    typeMismatchPrevented := assignRes.tmp }

/-! ### `llm/map_fields.py`: batched candidate suggestions -/

/-- An anchor as consumed by `llm_suggest_candidates`. -/
structure AnchorM where
  anchor_id : Str
  label_text : Str
  nearby_text : Str

/-- `_parse_llm_candidates`: decode, require a dict with a list under
"items", else no items. -/
def parseLlmCands (jl : Str → Option PyJson) (response : Str) : List PyJson :=
  match jl response with
  | some (.jObj fields) =>
    match alookup "items".toList fields with
    | some (.jArr items) => items
    | _ => []
  | _ => []

/-- `range(0, len, batch_size)` chunking. -/
def chunksOf {α : Type} (n : Nat) : List α → List (List α)
  | [] => []
  | x :: xs => (x :: xs).take (max n 1) :: chunksOf n ((x :: xs).drop (max n 1))
termination_by l => l.length
decreasing_by
  simp only [List.length_drop, List.length_cons]
  omega

/-- Python truthiness of a JSON value (`item.get("anchor_id") or ""`). -/
def jsonFalsy : PyJson → Bool
  | .jNull => true
  | .jBool b => !b
  | .jNum q => q = 0
  | .jStr s => s = []
  | .jArr l => l.isEmpty
  | .jObj f => f.isEmpty

/-- `str(...)` of a JSON scalar (containers are abstracted as in `pyStr`). -/
def jsonToPyStr : PyJson → Str
  | .jNull => "None".toList
  | .jBool b => if b then "True".toList else "False".toList
  | .jNum q => (toString q).toList
  | .jStr s => s
  | .jArr _ => "[...]".toList
  | .jObj _ => "\x7b...\x7d".toList

/-- `str(item.get("anchor_id") or "")`. -/
def anchorIdOf (v : Option PyJson) : Str :=
  match v with
  | none => []
  | some j => if jsonFalsy j then [] else jsonToPyStr j

/-- The batch prompt of `llm_suggest_candidates` (opaque `generate` input). -/
def sgPrompt (batch : List AnchorM) (dataKeys : List Str) (topK : Nat) : Str :=
  "Return ONLY strict JSON with schema items/candidates. top_k=".toList ++
  (toString topK).toList ++
  " Keys: ".toList ++ joinSp dataKeys ++
  " Anchors: ".toList ++
  joinSp (batch.map (fun a => a.anchor_id ++ ' ' :: a.label_text ++ ' ' :: a.nearby_text))

/-- The per-item cleaning loop; a non-dict item raises `AttributeError`
(`item.get` on it), modelled as the `Except.error` outcome. -/
def cleanItems (dataKeys : List Str) (topK : Nat)
    (results : List (Str × List (Str × ℚ))) :
    List PyJson → Except Str (List (Str × List (Str × ℚ)))
  | [] => .ok results
  | item :: rest =>
    match item with
    | .jObj f =>
      let anchorId := anchorIdOf (alookup "anchor_id".toList f)
      let results' :=
        if anchorId = [] then results
        else
          match alookup "candidates".toList f with
          | some (.jArr cand) =>
            let cleaned := cand.filterMap (fun entry =>
              match entry with
              | .jObj ef =>
                match alookup "key".toList ef with
                | some (.jStr k) =>
                  if dataKeys.contains k then
                    some (k, confToQ (alookup "confidence".toList ef))
                  else none
                | _ => none
              | _ => none)
            aupdate anchorId (cleaned.take topK) results
          | _ => results
      cleanItems dataKeys topK results' rest
    | _ => .error "AttributeError".toList

def suggestBatches (jl : Str → Option PyJson) (m : HFM) (dataKeys : List Str)
    (topK : Nat) (results : List (Str × List (Str × ℚ))) :
    List (List AnchorM) → Except Str (List (Str × List (Str × ℚ)))
  | [] => .ok results
  | batch :: rest =>
    match cleanItems dataKeys topK results
        (parseLlmCands jl (m.generate (sgPrompt batch dataKeys topK))) with
    | .error e => .error e
    | .ok results' => suggestBatches jl m dataKeys topK results' rest

/-- `llm_suggest_candidates` from `llm/map_fields.py`. -/
def llmSuggestCandidates (jl : Str → Option PyJson) (anchors : List AnchorM)
    (dataKeys : List Str) (heuristicMapping : List (Str × Bool))
    (model : Option HFM) (batchSize : Nat := 8) (topK : Nat := 5) :
    Except Str (List (Str × List (Str × ℚ))) :=
  let ambiguous := anchors.filter
    (fun a => (alookup a.anchor_id heuristicMapping).getD false)
  match model with
  | none => .ok []
  | some m =>
    if ambiguous.isEmpty || !m.availableB then .ok []
    else suggestBatches jl m dataKeys topK [] (chunksOf batchSize ambiguous)

/-! ### Statement-level predicates -/

/-- `[a, b)` is a maximal run of the character `ch` in `full`. -/
def maxRunAt (ch : Char) (full : Str) (a b : Nat) : Prop :=
  a < b ∧ b ≤ full.length ∧ (∀ i < b, a ≤ i → full[i]? = some ch) ∧
  (a = 0 ∨ full[a - 1]? ≠ some ch) ∧ full[b]? ≠ some ch

instance (ch : Char) (full : Str) (a b : Nat) : Decidable (maxRunAt ch full a b) := by
  unfold maxRunAt
  infer_instance

/-- Two raw pattern matches do not overlap (half-open intervals). -/
def rawDisj (p q : Nat × Nat × Str) : Prop := p.2.1 ≤ q.1 ∨ q.2.1 ≤ p.1

/-- The checkbox alternation's possible matches, as strings. -/
def cbTokenP (s : Str) : Prop :=
  s = "|_|".toList ∨
  (∃ w, (isPyWs w || w = 'x' || w = 'X') = true ∧ s = ['[', w, ']']) ∨
  (∃ g, (g = '☐' ∨ g = '☑' ∨ g = '□') ∧ s = [g])

/-- Two field spans do not overlap in character range. -/
def spanNoOverlap (p q : FieldSpan) : Prop :=
  p.end_char ≤ q.start_char ∨ q.end_char ≤ p.start_char

instance (p q : FieldSpan) : Decidable (spanNoOverlap p q) := by
  unfold spanNoOverlap
  infer_instance

/-- Length of the concatenation of the first `i` runs. -/
def prefixLen (runs : List Str) (i : Nat) : Nat :=
  ((runs.take i).flatten).length

/-! ### Fixtures: concrete instances used by witnesses and counterexamples -/

def fixLocBody : LocationD :=
  { type := "body".toList, section_idx := none, header_footer := none,
    table_idx := none, row := none, col := none, paragraph_idx := some 0 }

def fixLocTable : LocationD :=
  { type := "body".toList, section_idx := none, header_footer := none,
    table_idx := some 0, row := some 0, col := some 0, paragraph_idx := some 0 }

/-- An entirely empty table cell (a paragraph with no runs). -/
def fixEmptyCellCont : Container := { location := fixLocTable, runs := [] }

/-- The field span recorded for `fixEmptyCellCont` (hash capability
returning the empty string). -/
def fixEmptyCellSpan : FieldSpan :=
  { span_id := [], paragraph_idx := some 0, span_index := 0, start_char := 0,
    end_char := 0, blank_kind := "empty_cell".toList, raw_placeholder_text := [],
    left_context := [], right_context := [], paragraph_text := [],
    location := fixLocTable, run_idx_start := none, run_idx_end := none }

/-- A paragraph containing a two-underscore run. -/
def fixUndCont : Container := { location := fixLocBody, runs := ["ab__cd".toList] }

/-- A paragraph containing a three-dot run. -/
def fixDotsCont : Container := { location := fixLocBody, runs := ["a...b".toList] }

/-- A span whose context shares no token with `fixSpanB`'s context. -/
def fixSpanA : FieldSpan :=
  { span_id := "a1".toList, paragraph_idx := some 0, span_index := 0,
    start_char := 0, end_char := 2, blank_kind := "underscore".toList,
    raw_placeholder_text := "__".toList, left_context := "zzz".toList,
    right_context := "qqq".toList, paragraph_text := [],
    location := fixLocBody, run_idx_start := some 0, run_idx_end := some 0 }

/-- A second span, context disjoint from `fixSpanA`'s. -/
def fixSpanB : FieldSpan :=
  { span_id := "a2".toList, paragraph_idx := some 0, span_index := 1,
    start_char := 3, end_char := 5, blank_kind := "underscore".toList,
    raw_placeholder_text := "__".toList, left_context := "www".toList,
    right_context := "vvv".toList, paragraph_text := [],
    location := fixLocBody, run_idx_start := some 0, run_idx_end := some 0 }

/-- Similarity oracles for the mapping fixtures: a constant token-set
ratio of 80, no `process.extract` results and no JSON capability. -/
def fixOraZ : MapOracles :=
  { tsr := fun _ _ => 80, wExtract := fun _ _ => [], jsonLoads := fun _ => none }

/-- A data record with the single (non-repeatable) key `camp`. -/
def fixDataZ : List (Str × PyVal) := [("camp".toList, .vStr "hello".toList)]

/-- A two-key data record for the selection-loop fixtures. -/
def fixDataW : List (Str × PyVal) :=
  [("k".toList, .vStr "x".toList), ("m".toList, .vStr "y".toList)]

/-- An unavailable language model. -/
def fixHFMOff : HFM := { availableB := false, generate := fun _ => [] }

/-! ## Scanner lemmas -/

theorem countPfx_le_length (ch : Char) (l : Str) : countPfx ch l ≤ l.length := by
  induction l with
  | nil => simp [countPfx]
  | cons x xs ih =>
    simp only [countPfx, List.length_cons]
    split
    · omega
    · omega

theorem countPfx_get (ch : Char) (l : Str) (i : Nat) (h : i < countPfx ch l) :
    l[i]? = some ch := by
  induction l generalizing i with
  | nil => simp [countPfx] at h
  | cons x xs ih =>
    simp only [countPfx] at h
    split at h
    · rename_i hx
      cases i with
      | zero => simp [hx]
      | succ j =>
        simp only [List.getElem?_cons_succ]
        exact ih j (by omega)
    · omega

theorem countPfx_after (ch : Char) (l : Str) :
    l[countPfx ch l]? ≠ some ch := by
  induction l with
  | nil => simp [countPfx]
  | cons x xs ih =>
    simp only [countPfx]
    split
    · simpa using ih
    · rename_i hx
      simpa using fun h => hx h

theorem scanAux_fst_lb (m : Str → Option Nat) :
    ∀ l off, ∀ p ∈ scanAux m l off, off ≤ p.1 := by
  intro l off
  induction l, off using scanAux.induct m with
  | case1 off => intro p hp; simp [scanAux] at hp
  | case2 x xs off n hm ih =>
    intro p hp
    rw [scanAux, hm] at hp
    rcases List.mem_cons.mp hp with h | h
    · subst h; exact le_refl _
    · exact le_trans (Nat.le_add_right _ _) (ih p h)
  | case3 x xs off hm ih =>
    intro p hp
    rw [scanAux, hm] at hp
    exact le_trans (Nat.le_succ _) (ih p hp)

theorem scanAux_bounds (m : Str → Option Nat)
    (hm : ∀ l n, m l = some n → 1 ≤ n ∧ n ≤ l.length) :
    ∀ l off, ∀ p ∈ scanAux m l off,
      p.1 < p.2 ∧ p.2 ≤ off + l.length := by
  intro l off
  induction l, off using scanAux.induct m with
  | case1 off => intro p hp; simp [scanAux] at hp
  | case2 x xs off n hmatch ih =>
    intro p hp
    rw [scanAux, hmatch] at hp
    obtain ⟨h1, h2⟩ := hm _ _ hmatch
    rcases List.mem_cons.mp hp with h | h
    · subst h
      constructor
      · omega
      · simp only [List.length_cons] at h2 ⊢; omega
    · obtain ⟨ih1, ih2⟩ := ih p h
      refine ⟨ih1, le_trans ih2 ?_⟩
      have hd : (xs.drop (n - 1)).length = xs.length - (n - 1) := List.length_drop _ _
      simp only [List.length_cons] at h2 ⊢
      omega
  | case3 x xs off hmatch ih =>
    intro p hp
    rw [scanAux, hmatch] at hp
    obtain ⟨ih1, ih2⟩ := ih p hp
    refine ⟨ih1, le_trans ih2 ?_⟩
    simp only [List.length_cons]
    omega

theorem scanAux_pairwise (m : Str → Option Nat) :
    ∀ l off, List.Pairwise (fun p q => p.2 ≤ q.1) (scanAux m l off) := by
  intro l off
  induction l, off using scanAux.induct m with
  | case1 off => simp [scanAux]
  | case2 x xs off n hm ih =>
    rw [scanAux, hm]
    refine List.pairwise_cons.mpr ⟨?_, ih⟩
    intro q hq
    exact scanAux_fst_lb m _ _ q hq
  | case3 x xs off hm ih =>
    rw [scanAux, hm]
    exact ih

theorem scanAux_content (m : Str → Option Nat) (P : Str → Prop) (full : Str)
    (hm1 : ∀ l n, m l = some n → 1 ≤ n)
    (hmP : ∀ l n, m l = some n → P (l.take n)) :
    ∀ l off, l = full.drop off → ∀ p ∈ scanAux m l off,
      P ((full.drop p.1).take (p.2 - p.1)) := by
  intro l off
  induction l, off using scanAux.induct m with
  | case1 off => intro _ p hp; simp [scanAux] at hp
  | case2 x xs off n hmatch ih =>
    intro hl p hp
    rw [scanAux, hmatch] at hp
    have hn1 : 1 ≤ n := hm1 _ _ hmatch
    have hdropstep : xs.drop (n - 1) = full.drop (off + n) := by
      have : xs.drop (n - 1) = (x :: xs).drop n := by
        cases n with
        | zero => omega
        | succ j => simp
      rw [this, hl, List.drop_drop]
    rcases List.mem_cons.mp hp with h | h
    · subst h
      simp only
      have : off + n - off = n := by omega
      rw [this, ← hl]
      exact hmP _ _ hmatch
    · exact ih hdropstep p h
  | case3 x xs off hmatch ih =>
    intro hl p hp
    rw [scanAux, hmatch] at hp
    have hdropstep : xs = full.drop (off + 1) := by
      have : xs = (x :: xs).drop 1 := by simp
      rw [this, hl, List.drop_drop]
    exact ih hdropstep p hp

theorem runMatcher_some_iff (ch : Char) (k : Nat) (l : Str) (n : Nat) :
    runMatcher ch k l = some n ↔ n = countPfx ch l ∧ k ≤ countPfx ch l := by
  simp only [runMatcher]
  split
  · rename_i h
    constructor
    · intro he; cases he; exact ⟨rfl, h⟩
    · rintro ⟨rfl, _⟩; rfl
  · rename_i h
    constructor
    · intro he; cases he
    · rintro ⟨rfl, hk⟩; exact absurd hk h

theorem countPfx_cons (ch x : Char) (xs : Str) :
    countPfx ch (x :: xs) = if x = ch then countPfx ch xs + 1 else 0 := rfl

theorem getElem?_drop_off (full : Str) (off i : Nat) :
    (full.drop off)[i]? = full[off + i]? := List.getElem?_drop full off i

/-- Membership characterization for the run scanners: a span is produced
exactly at the maximal runs of `ch` of length at least `k`. -/
theorem runScan_mem_iff_gen (ch : Char) (k : Nat) (hk : 1 ≤ k) (full : Str)
    (a b : Nat) :
    ∀ l off, l = full.drop off →
      ((a, b) ∈ scanAux (runMatcher ch k) l off ↔
        (off ≤ a ∧ k ≤ b - a ∧ b ≤ full.length ∧
         (∀ i < b, a ≤ i → full[i]? = some ch) ∧
         (a = off ∨ full[a - 1]? ≠ some ch) ∧ full[b]? ≠ some ch)) := by
  intro l off
  induction l, off using scanAux.induct (runMatcher ch k) with
  | case1 off =>
    intro hl
    simp only [scanAux, List.not_mem_nil, false_iff]
    rintro ⟨hoffa, hkba, hble, _, _, _⟩
    have hlen : (full.drop off).length = full.length - off := List.length_drop off full
    rw [← hl] at hlen
    simp only [List.length_nil] at hlen
    omega
  | case2 x xs off n hmatch ih =>
    intro hl
    obtain ⟨hn, hkr⟩ := (runMatcher_some_iff ch k _ n).mp hmatch
    subst hn
    have hn1 : 1 ≤ countPfx ch (x :: xs) := le_trans hk hkr
    have hlenx : (x :: xs).length = full.length - off := by
      rw [hl]; exact List.length_drop off full
    have hofflt : off < full.length := by
      simp only [List.length_cons] at hlenx; omega
    have hrlen : countPfx ch (x :: xs) ≤ (x :: xs).length := countPfx_le_length ch _
    have hchar : ∀ i < countPfx ch (x :: xs), full[off + i]? = some ch := by
      intro i hi
      rw [← getElem?_drop_off, ← hl]
      exact countPfx_get ch _ i hi
    have hafter : full[off + countPfx ch (x :: xs)]? ≠ some ch := by
      rw [← getElem?_drop_off, ← hl]
      exact countPfx_after ch _
    have hdropstep : xs.drop (countPfx ch (x :: xs) - 1) =
        full.drop (off + countPfx ch (x :: xs)) := by
      have h2 : xs.drop (countPfx ch (x :: xs) - 1) =
          (x :: xs).drop (countPfx ch (x :: xs)) := by
        cases hcp : countPfx ch (x :: xs) with
        | zero => omega
        | succ j => simp
      rw [h2, hl, List.drop_drop]
    rw [scanAux, hmatch, List.mem_cons, ih hdropstep]
    constructor
    · rintro (heq | ⟨h1, h2, h3, h4, h5, h6⟩)
      · have ha : a = off := congrArg Prod.fst heq
        have hb : b = off + countPfx ch (x :: xs) := congrArg Prod.snd heq
        subst ha; subst hb
        refine ⟨le_refl _, by omega,
          by simp only [List.length_cons] at hlenx hrlen; omega, ?_,
          Or.inl rfl, hafter⟩
        intro i hi hai
        have h7 := hchar (i - a) (by omega)
        have heq2 : a + (i - a) = i := by omega
        rwa [heq2] at h7
      · have haneq : a ≠ off + countPfx ch (x :: xs) := by
          intro he
          have hac : full[a]? = some ch := h4 a (by omega) (le_refl a)
          rw [he] at hac
          exact hafter hac
        refine ⟨by omega, h2, h3, h4, ?_, h6⟩
        rcases h5 with h5 | h5
        · exact absurd h5 haneq
        · exact Or.inr h5
    · rintro ⟨h1, h2, h3, h4, h5, h6⟩
      rcases Nat.eq_or_lt_of_le h1 with heq | hlt
      · -- a = off: the head span; b is forced to off + r
        subst heq
        left
        have hb : b = off + countPfx ch (x :: xs) := by
          by_contra hne
          rcases Nat.lt_or_ge b (off + countPfx ch (x :: xs)) with hblt | hbge
          · have h7 := hchar (b - off) (by omega)
            have heq2 : off + (b - off) = b := by omega
            rw [heq2] at h7
            exact h6 h7
          · have h7 : full[off + countPfx ch (x :: xs)]? = some ch :=
              h4 (off + countPfx ch (x :: xs)) (by omega) (by omega)
            exact hafter h7
        rw [hb]
      · -- off < a: the span lives in the tail
        right
        have hge : off + countPfx ch (x :: xs) < a := by
          rcases Nat.lt_or_ge a (off + countPfx ch (x :: xs)) with hlt2 | hge2
          · exfalso
            have h7 := hchar (a - 1 - off) (by omega)
            have heq2 : off + (a - 1 - off) = a - 1 := by omega
            rw [heq2] at h7
            rcases h5 with h5 | h5
            · omega
            · exact h5 h7
          · rcases Nat.eq_or_lt_of_le hge2 with he | hlt3
            · exfalso
              have h7 : full[a]? = some ch := h4 a (by omega) (le_refl a)
              rw [← he] at h7
              exact hafter h7
            · exact hlt3
        refine ⟨by omega, h2, h3, h4, ?_, h6⟩
        rcases h5 with h5 | h5
        · omega
        · exact Or.inr h5
  | case3 x xs off hmatch ih =>
    intro hl
    have hshort : countPfx ch (x :: xs) < k := by
      by_contra hcon
      push_neg at hcon
      have h8 : runMatcher ch k (x :: xs) = some (countPfx ch (x :: xs)) :=
        (runMatcher_some_iff ch k _ _).mpr ⟨rfl, hcon⟩
      rw [h8] at hmatch
      cases hmatch
    have hchar : ∀ i < countPfx ch (x :: xs), full[off + i]? = some ch := by
      intro i hi
      rw [← getElem?_drop_off, ← hl]
      exact countPfx_get ch _ i hi
    have hafter : full[off + countPfx ch (x :: xs)]? ≠ some ch := by
      rw [← getElem?_drop_off, ← hl]
      exact countPfx_after ch _
    have hx0 : full[off]? = some x := by
      have h9 : full[off + 0]? = (full.drop off)[0]? := (getElem?_drop_off full off 0).symm
      rw [← hl] at h9
      simpa using h9
    have hxch : full[off]? = some ch → 1 ≤ countPfx ch (x :: xs) := by
      intro h
      rw [hx0] at h
      cases h
      rw [countPfx_cons]
      simp
    have hdropstep : xs = full.drop (off + 1) := by
      have h2 : xs = (x :: xs).drop 1 := by simp
      rw [h2, hl, List.drop_drop]
    rw [scanAux, hmatch, ih hdropstep]
    constructor
    · rintro ⟨h1, h2, h3, h4, h5, h6⟩
      refine ⟨by omega, h2, h3, h4, ?_, h6⟩
      rcases h5 with h5 | h5
      · -- a = off + 1: full[off] cannot be ch, else the left-max fails but the
        -- short run also cannot reach b; we show full[off] ≠ ch or contradiction
        subst h5
        right
        simp only [Nat.add_sub_cancel]
        intro hoffch
        have hr1 : 1 ≤ countPfx ch (x :: xs) := hxch hoffch
        have h7 : full[off + countPfx ch (x :: xs)]? = some ch :=
          h4 (off + countPfx ch (x :: xs)) (by omega) (by omega)
        exact hafter h7
      · exact Or.inr h5
    · rintro ⟨h1, h2, h3, h4, h5, h6⟩
      have haoff : a ≠ off := by
        intro he
        subst he
        have hach : full[a]? = some ch := h4 a (by omega) (le_refl a)
        have hr1 : 1 ≤ countPfx ch (x :: xs) := hxch hach
        have h7 : full[a + countPfx ch (x :: xs)]? = some ch :=
          h4 (a + countPfx ch (x :: xs)) (by omega) (by omega)
        exact hafter h7
      refine ⟨by omega, h2, h3, h4, ?_, h6⟩
      rcases h5 with h5 | h5
      · exact absurd h5 haoff
      · exact Or.inr h5

theorem cbMatch_spec : ∀ l n, cbMatch l = some n →
    1 ≤ n ∧ n ≤ l.length ∧ cbTokenP (l.take n) := by
  intro l n h
  unfold cbMatch at h
  split at h
  · cases h
    exact ⟨by omega, by simp, Or.inl rfl⟩
  · rename_i lorig w rest
    split at h
    · cases h
      rename_i hw
      exact ⟨by omega, by simp, Or.inr (Or.inl ⟨w, hw, rfl⟩)⟩
    · cases h
  · cases h
    exact ⟨by omega, by simp, Or.inr (Or.inr ⟨'☐', Or.inl rfl, rfl⟩)⟩
  · cases h
    exact ⟨by omega, by simp, Or.inr (Or.inr ⟨'☑', Or.inr (Or.inl rfl), rfl⟩)⟩
  · cases h
    exact ⟨by omega, by simp, Or.inr (Or.inr ⟨'□', Or.inr (Or.inr rfl), rfl⟩)⟩
  · cases h

theorem slice_getElem (full : Str) (a b j : Nat) (hj : j < b - a) :
    ((full.drop a).take (b - a))[j]? = full[a + j]? := by
  rw [List.getElem?_take]
  simp [hj, getElem?_drop_off]

theorem runSpan_facts (ch : Char) (k : Nat) (hk : 1 ≤ k) (text : Str)
    (p : Nat × Nat) (hp : p ∈ scanAux (runMatcher ch k) text 0) :
    k ≤ p.2 - p.1 ∧ p.2 ≤ text.length ∧
      ∀ i, p.1 ≤ i → i < p.2 → text[i]? = some ch := by
  have h := (runScan_mem_iff_gen ch k hk text p.1 p.2 text 0
    (List.drop_zero text).symm).mp (by simpa using hp)
  exact ⟨h.2.1, h.2.2.1, fun i h1 h2 => h.2.2.2.1 i h2 h1⟩

theorem cbSpan_facts (text : Str) (p : Nat × Nat) (hp : p ∈ checkboxSpans text) :
    p.1 < p.2 ∧ p.2 ≤ text.length ∧
    ((p.2 = p.1 + 3 ∧ text[p.1]? = some '|' ∧ text[p.1 + 1]? = some '_' ∧
        text[p.1 + 2]? = some '|') ∨
     (p.2 = p.1 + 3 ∧ ∃ w, (isPyWs w || w = 'x' || w = 'X') = true ∧
        text[p.1]? = some '[' ∧ text[p.1 + 1]? = some w ∧
        text[p.1 + 2]? = some ']') ∨
     (p.2 = p.1 + 1 ∧ ∃ g, (g = '☐' ∨ g = '☑' ∨ g = '□') ∧
        text[p.1]? = some g)) := by
  have hb := scanAux_bounds cbMatch
    (fun l n h => ⟨(cbMatch_spec l n h).1, (cbMatch_spec l n h).2.1⟩) text 0 p hp
  have hc := scanAux_content cbMatch cbTokenP text
    (fun l n h => (cbMatch_spec l n h).1)
    (fun l n h => (cbMatch_spec l n h).2.2) text 0 (List.drop_zero text).symm p hp
  simp only [Nat.zero_add] at hb
  refine ⟨hb.1, hb.2, ?_⟩
  rcases hc with hc | ⟨w, hw, hc⟩ | ⟨g, hg, hc⟩
  · left
    have hlen : p.2 - p.1 = 3 := by
      have := congrArg List.length hc
      simp only [List.length_take, List.length_drop] at this
      have h3 : ("|_|".toList).length = 3 := rfl
      rw [h3] at this
      omega
    refine ⟨by omega, ?_, ?_, ?_⟩
    · have := slice_getElem text p.1 p.2 0 (by omega)
      rw [hc] at this
      simpa using this.symm
    · have := slice_getElem text p.1 p.2 1 (by omega)
      rw [hc] at this
      simpa using this.symm
    · have := slice_getElem text p.1 p.2 2 (by omega)
      rw [hc] at this
      simpa using this.symm
  · right; left
    have hlen : p.2 - p.1 = 3 := by
      have := congrArg List.length hc
      simp only [List.length_take, List.length_drop] at this
      simp only [List.length_cons, List.length_nil] at this
      omega
    refine ⟨by omega, w, hw, ?_, ?_, ?_⟩
    · have := slice_getElem text p.1 p.2 0 (by omega)
      rw [hc] at this
      simpa using this.symm
    · have := slice_getElem text p.1 p.2 1 (by omega)
      rw [hc] at this
      simpa using this.symm
    · have := slice_getElem text p.1 p.2 2 (by omega)
      rw [hc] at this
      simpa using this.symm
  · right; right
    have hlen : p.2 - p.1 = 1 := by
      have := congrArg List.length hc
      simp only [List.length_take, List.length_drop] at this
      simp only [List.length_cons, List.length_nil] at this
      omega
    refine ⟨by omega, g, hg, ?_⟩
    have := slice_getElem text p.1 p.2 0 (by omega)
    rw [hc] at this
    simpa using this.symm

theorem interval_disj_of_no_common (a b c d : Nat) (hab : a < b) (hcd : c < d)
    (h : ∀ i, a ≤ i → i < b → c ≤ i → i < d → False) : b ≤ c ∨ d ≤ a := by
  by_contra hcon
  push_neg at hcon
  exact h (max a c) (le_max_left _ _) (by omega) (le_max_right _ _) (by omega)

theorem mem_triMap {l : List (Nat × Nat)} {ks : Str} {p : Nat × Nat × Str}
    (hp : p ∈ l.map (fun q => (q.1, q.2, ks))) :
    (p.1, p.2.1) ∈ l ∧ p.2.2 = ks := by
  obtain ⟨q, hq, he⟩ := List.mem_map.mp hp
  cases he
  exact ⟨by simpa using hq, rfl⟩

theorem runs_cross_disj (text : Str) (ch1 ch2 : Char) (k1 k2 : Nat)
    (h1 : 1 ≤ k1) (h2 : 1 ≤ k2) (hne : ch1 ≠ ch2) (p q : Nat × Nat)
    (hp : p ∈ scanAux (runMatcher ch1 k1) text 0)
    (hq : q ∈ scanAux (runMatcher ch2 k2) text 0) :
    p.2 ≤ q.1 ∨ q.2 ≤ p.1 := by
  obtain ⟨hpk, hpl, hpc⟩ := runSpan_facts ch1 k1 h1 text p hp
  obtain ⟨hqk, hql, hqc⟩ := runSpan_facts ch2 k2 h2 text q hq
  refine interval_disj_of_no_common _ _ _ _ (by omega) (by omega) ?_
  intro i hi1 hi2 hi3 hi4
  have e1 := hpc i hi1 hi2
  have e2 := hqc i hi3 hi4
  rw [e1] at e2
  exact hne (Option.some.inj e2)

theorem run_cb_disj (text : Str) (ch : Char) (k : Nat) (hk : 1 ≤ k)
    (hc1 : ch ≠ '|') (hc2 : ch ≠ '_') (hc3 : ch ≠ '[') (hc4 : ch ≠ ']')
    (hc5 : isPyWs ch = false) (hc6 : ch ≠ 'x') (hc7 : ch ≠ 'X')
    (hc8 : ch ≠ '☐') (hc9 : ch ≠ '☑') (hc10 : ch ≠ '□') (p q : Nat × Nat)
    (hp : p ∈ scanAux (runMatcher ch k) text 0) (hq : q ∈ checkboxSpans text) :
    p.2 ≤ q.1 ∨ q.2 ≤ p.1 := by
  obtain ⟨hpk, hpl, hpc⟩ := runSpan_facts ch k hk text p hp
  obtain ⟨hqab, hql, hcase⟩ := cbSpan_facts text q hq
  refine interval_disj_of_no_common _ _ _ _ (by omega) hqab ?_
  intro i hi1 hi2 hi3 hi4
  have e1 := hpc i hi1 hi2
  rcases hcase with ⟨hd, e0, ea, eb⟩ | ⟨hd, w, hw, e0, ea, eb⟩ | ⟨hd, g, hg, e0⟩
  · have hi : i = q.1 ∨ i = q.1 + 1 ∨ i = q.1 + 2 := by omega
    rcases hi with rfl | rfl | rfl
    · rw [e1] at e0; exact hc1 (Option.some.inj e0)
    · rw [e1] at ea; exact hc2 (Option.some.inj ea)
    · rw [e1] at eb; exact hc1 (Option.some.inj eb)
  · have hi : i = q.1 ∨ i = q.1 + 1 ∨ i = q.1 + 2 := by omega
    rcases hi with rfl | rfl | rfl
    · rw [e1] at e0; exact hc3 (Option.some.inj e0)
    · rw [e1] at ea
      have hwch : ch = w := Option.some.inj ea
      subst hwch
      simp only [hc5, Bool.false_or, Bool.or_eq_true, decide_eq_true_eq] at hw
      rcases hw with h | h
      · exact hc6 h
      · exact hc7 h
    · rw [e1] at eb; exact hc4 (Option.some.inj eb)
  · have hi : i = q.1 := by omega
    subst hi
    rw [e1] at e0
    have : ch = g := Option.some.inj e0
    rcases hg with rfl | rfl | rfl
    · exact hc8 this
    · exact hc9 this
    · exact hc10 this

theorem und_cb_disj (text : Str) (p q : Nat × Nat)
    (hp : p ∈ underscoreSpans text) (hq : q ∈ checkboxSpans text) :
    p.2 ≤ q.1 ∨ q.2 ≤ p.1 := by
  obtain ⟨hpk, hpl, hpc⟩ := runSpan_facts '_' 2 (by omega) text p hp
  obtain ⟨hqab, hql, hcase⟩ := cbSpan_facts text q hq
  by_contra hcon
  push_neg at hcon
  obtain ⟨hqb, hpa⟩ := hcon
  rcases hcase with ⟨hd, e0, ea, eb⟩ | ⟨hd, w, hw, e0, ea, eb⟩ | ⟨hd, g, hg, e0⟩
  · -- token "|_|": the only underscore position is q.1 + 1
    rcases Nat.lt_or_ge q.1 p.1 with hlt | hge
    · -- p.1 ∈ (q.1, q.1+3): p.1 = q.1+1 or q.1+2
      have hi : p.1 = q.1 + 1 ∨ p.1 = q.1 + 2 := by omega
      rcases hi with hpe | hpe
      · -- run starts at q.1+1, so q.1+2 is inside it: '|' vs '_'
        have e1 := hpc (q.1 + 2) (by omega) (by omega)
        rw [e1] at eb
        exact absurd (Option.some.inj eb) (by decide)
      · have e1 := hpc (q.1 + 2) (by omega) (by omega)
        rw [e1] at eb
        exact absurd (Option.some.inj eb) (by decide)
    · -- p.1 ≤ q.1 < p.2: position q.1 is '|' inside the run
      have e1 := hpc q.1 hge (by omega)
      rw [e1] at e0
      exact absurd (Option.some.inj e0) (by decide)
  · -- token "[w]": no underscore anywhere in it
    have hi : ∃ i, p.1 ≤ i ∧ i < p.2 ∧ q.1 ≤ i ∧ i < q.2 :=
      ⟨max p.1 q.1, le_max_left _ _, by omega, le_max_right _ _, by omega⟩
    obtain ⟨i, hi1, hi2, hi3, hi4⟩ := hi
    have e1 := hpc i hi1 hi2
    have hcases : i = q.1 ∨ i = q.1 + 1 ∨ i = q.1 + 2 := by omega
    rcases hcases with rfl | rfl | rfl
    · rw [e1] at e0; exact absurd (Option.some.inj e0) (by decide)
    · rw [e1] at ea
      have hwu : w = '_' := (Option.some.inj ea).symm
      subst hwu
      exact absurd hw (by decide)
    · rw [e1] at eb; exact absurd (Option.some.inj eb) (by decide)
  · have hi : ∃ i, p.1 ≤ i ∧ i < p.2 ∧ q.1 ≤ i ∧ i < q.2 :=
      ⟨max p.1 q.1, le_max_left _ _, by omega, le_max_right _ _, by omega⟩
    obtain ⟨i, hi1, hi2, hi3, hi4⟩ := hi
    have e1 := hpc i hi1 hi2
    have hieq : i = q.1 := by omega
    subst hieq
    rw [e1] at e0
    have := Option.some.inj e0
    rcases hg with rfl | rfl | rfl <;> exact absurd this (by decide)

theorem extractRaw_mem (text : Str) (p : Nat × Nat × Str) :
    p ∈ extractSpansFromText text ↔
      p ∈ (underscoreSpans text).map (fun q => (q.1, q.2, "underscore".toList)) ++
          ((dotSpans text).map (fun q => (q.1, q.2, "dots".toList)) ++
           ((ellipsisSpans text).map (fun q => (q.1, q.2, "ellipsis".toList)) ++
            (checkboxSpans text).map (fun q => (q.1, q.2, "checkbox".toList)))) := by
  simp only [extractSpansFromText]
  rw [(List.perm_insertionSort _ _).mem_iff]
  simp [List.append_assoc]

theorem extractRaw_bounds (text : Str) (p : Nat × Nat × Str)
    (hp : p ∈ extractSpansFromText text) :
    p.1 < p.2.1 ∧ p.2.1 ≤ text.length := by
  rw [extractRaw_mem] at hp
  simp only [List.mem_append] at hp
  rcases hp with h | h | h | h
  · obtain ⟨hmem, _⟩ := mem_triMap h
    obtain ⟨h1, h2, _⟩ := runSpan_facts '_' 2 (by omega) text _ hmem
    simp only at h1 h2
    exact ⟨by omega, h2⟩
  · obtain ⟨hmem, _⟩ := mem_triMap h
    obtain ⟨h1, h2, _⟩ := runSpan_facts '.' 4 (by omega) text _ hmem
    simp only at h1 h2
    exact ⟨by omega, h2⟩
  · obtain ⟨hmem, _⟩ := mem_triMap h
    obtain ⟨h1, h2, _⟩ := runSpan_facts '…' 2 (by omega) text _ hmem
    simp only at h1 h2
    exact ⟨by omega, h2⟩
  · obtain ⟨hmem, _⟩ := mem_triMap h
    obtain ⟨h1, h2, _⟩ := cbSpan_facts text _ hmem
    exact ⟨h1, h2⟩

theorem extractRaw_pairwise (text : Str) :
    List.Pairwise rawDisj (extractSpansFromText text) := by
  simp only [extractSpansFromText]
  refine List.Pairwise.perm ?_ (List.perm_insertionSort _ _).symm ?_
  · have hU : List.Pairwise rawDisj
        ((underscoreSpans text).map (fun q => (q.1, q.2, "underscore".toList))) :=
      (scanAux_pairwise _ text 0).map _ (fun a b h => Or.inl h)
    have hD : List.Pairwise rawDisj
        ((dotSpans text).map (fun q => (q.1, q.2, "dots".toList))) :=
      (scanAux_pairwise _ text 0).map _ (fun a b h => Or.inl h)
    have hE : List.Pairwise rawDisj
        ((ellipsisSpans text).map (fun q => (q.1, q.2, "ellipsis".toList))) :=
      (scanAux_pairwise _ text 0).map _ (fun a b h => Or.inl h)
    have hC : List.Pairwise rawDisj
        ((checkboxSpans text).map (fun q => (q.1, q.2, "checkbox".toList))) :=
      (scanAux_pairwise _ text 0).map _ (fun a b h => Or.inl h)
    rw [List.append_assoc, List.append_assoc]
    rw [List.pairwise_append]
    refine ⟨hU, ?_, ?_⟩
    · rw [List.pairwise_append]
      refine ⟨hD, ?_, ?_⟩
      · rw [List.pairwise_append]
        refine ⟨hE, hC, ?_⟩
        intro a ha b hb
        obtain ⟨hma, _⟩ := mem_triMap ha
        obtain ⟨hmb, _⟩ := mem_triMap hb
        exact run_cb_disj text '…' 2 (by omega) (by decide) (by decide)
          (by decide) (by decide) (by decide) (by decide) (by decide)
          (by decide) (by decide) (by decide) _ _ hma hmb
      · intro a ha b hb
        obtain ⟨hma, _⟩ := mem_triMap ha
        rw [List.mem_append] at hb
        rcases hb with hb | hb
        · obtain ⟨hmb, _⟩ := mem_triMap hb
          exact runs_cross_disj text '.' '…' 4 2 (by omega) (by omega)
            (by decide) _ _ hma hmb
        · obtain ⟨hmb, _⟩ := mem_triMap hb
          exact run_cb_disj text '.' 4 (by omega) (by decide) (by decide)
            (by decide) (by decide) (by decide) (by decide) (by decide)
            (by decide) (by decide) (by decide) _ _ hma hmb
    · intro a ha b hb
      obtain ⟨hma, _⟩ := mem_triMap ha
      rw [List.mem_append] at hb
      rcases hb with hb | hb
      · obtain ⟨hmb, _⟩ := mem_triMap hb
        exact runs_cross_disj text '_' '.' 2 4 (by omega) (by omega)
          (by decide) _ _ hma hmb
      · rw [List.mem_append] at hb
        rcases hb with hb | hb
        · obtain ⟨hmb, _⟩ := mem_triMap hb
          exact runs_cross_disj text '_' '…' 2 2 (by omega) (by omega)
            (by decide) _ _ hma hmb
        · obtain ⟨hmb, _⟩ := mem_triMap hb
          exact und_cb_disj text _ _ hma hmb
  · intro x y h
    rcases h with h | h
    · exact Or.inr h
    · exact Or.inl h

theorem mem_enum_of_mem {α : Type} {l : List α} {x : α} (hx : x ∈ l) :
    ∃ i, (i, x) ∈ l.enum := by
  have hx2 : x ∈ l.enum.map Prod.snd := by rwa [List.enum_map_snd]
  obtain ⟨it, hit, he⟩ := List.mem_map.mp hx2
  exact ⟨it.1, by
    have h2 : it = (it.1, x) := by
      cases it
      cases he
      rfl
    rwa [h2] at hit⟩

theorem snd_mem_of_mem_enum {α : Type} {l : List α} {it : Nat × α}
    (h : it ∈ l.enum) : it.2 ∈ l := by
  have h2 : it.2 ∈ l.enum.map Prod.snd := List.mem_map_of_mem _ h
  rwa [List.enum_map_snd] at h2

theorem extractRaw_kind_mem_und (text : Str) (a b : Nat) :
    (a, b, "underscore".toList) ∈ extractSpansFromText text ↔
      (a, b) ∈ underscoreSpans text := by
  rw [extractRaw_mem]
  simp only [List.mem_append]
  constructor
  · rintro (h | h | h | h)
    · exact (mem_triMap h).1
    · have h2 : ("underscore".toList : Str) = "dots".toList := (mem_triMap h).2
      exact absurd h2 (by decide)
    · have h2 : ("underscore".toList : Str) = "ellipsis".toList := (mem_triMap h).2
      exact absurd h2 (by decide)
    · have h2 : ("underscore".toList : Str) = "checkbox".toList := (mem_triMap h).2
      exact absurd h2 (by decide)
  · intro h
    exact Or.inl (List.mem_map_of_mem _ h)

theorem extractRaw_kind_mem_dots (text : Str) (a b : Nat) :
    (a, b, "dots".toList) ∈ extractSpansFromText text ↔
      (a, b) ∈ dotSpans text := by
  rw [extractRaw_mem]
  simp only [List.mem_append]
  constructor
  · rintro (h | h | h | h)
    · have h2 : ("dots".toList : Str) = "underscore".toList := (mem_triMap h).2
      exact absurd h2 (by decide)
    · exact (mem_triMap h).1
    · have h2 : ("dots".toList : Str) = "ellipsis".toList := (mem_triMap h).2
      exact absurd h2 (by decide)
    · have h2 : ("dots".toList : Str) = "checkbox".toList := (mem_triMap h).2
      exact absurd h2 (by decide)
  · intro h
    exact Or.inr (Or.inl (List.mem_map_of_mem _ h))

theorem extractSpansFromText_nil : extractSpansFromText ([] : Str) = [] := by
  simp [extractSpansFromText, underscoreSpans, dotSpans, ellipsisSpans,
    checkboxSpans, scanAux]

theorem spansOfContainer_kind_mem (hashFn : Str → Str) (c : Container)
    (K : Str) (hK : K ≠ "empty_cell".toList) (a b : Nat) :
    (∃ sp ∈ spansOfContainer hashFn c,
        sp.blank_kind = K ∧ sp.start_char = a ∧ sp.end_char = b) ↔
      (a, b, K) ∈ extractSpansFromText (concatRuns c) := by
  simp only [spansOfContainer]
  split
  · rename_i htext
    rw [htext, extractSpansFromText_nil]
    simp only [List.not_mem_nil, iff_false]
    split
    · rintro ⟨sp, hsp, hkind, _, _⟩
      rw [List.mem_singleton] at hsp
      subst hsp
      exact hK hkind.symm
    · rintro ⟨sp, hsp, _⟩
      simp at hsp
  · rename_i htext
    split
    · rename_i hraw
      rw [hraw]
      simp only [List.not_mem_nil, iff_false]
      rintro ⟨sp, hsp, _⟩
      simp at hsp
    · rename_i hraw
      constructor
      · rintro ⟨sp, hsp, hkind, hstart, hend⟩
        obtain ⟨it, hit, he⟩ := List.mem_map.mp hsp
        have hsnd : it.2 ∈ extractSpansFromText (concatRuns c) :=
          snd_mem_of_mem_enum hit
        have h1 : it.2.2.2 = K := by rw [← hkind, ← he]
        have h2 : it.2.1 = a := by rw [← hstart, ← he]
        have h3 : it.2.2.1 = b := by rw [← hend, ← he]
        have h4 : it.2 = (a, b, K) := by
          rw [← h1, ← h2, ← h3]
        rwa [h4] at hsnd
      · intro hmem
        obtain ⟨i, hi⟩ := mem_enum_of_mem hmem
        refine ⟨_, List.mem_map_of_mem _ hi, ?_, ?_, ?_⟩ <;> rfl

theorem runScan_top_iff (ch : Char) (k : Nat) (hk : 1 ≤ k) (text : Str)
    (a b : Nat) :
    ((a, b) ∈ scanAux (runMatcher ch k) text 0) ↔
      (maxRunAt ch text a b ∧ k ≤ b - a) := by
  rw [runScan_mem_iff_gen ch k hk text a b text 0 (List.drop_zero text).symm]
  unfold maxRunAt
  constructor
  · rintro ⟨h1, h2, h3, h4, h5, h6⟩
    exact ⟨⟨by omega, h3, h4, h5, h6⟩, h2⟩
  · rintro ⟨⟨hab, h3, h4, h5, h6⟩, h2⟩
    exact ⟨Nat.zero_le _, h2, h3, h4, h5, h6⟩

theorem spansOfContainer_pairwise (hashFn : Str → Str) (c : Container) :
    List.Pairwise spanNoOverlap (spansOfContainer hashFn c) := by
  simp only [spansOfContainer]
  split
  · split
    · simp [List.pairwise_singleton]
    · simp
  · split
    · simp
    · have hpw := extractRaw_pairwise (concatRuns c)
      have h1 : List.Pairwise (fun x y => rawDisj x.2 y.2)
          (extractSpansFromText (concatRuns c)).enum := by
        rw [← List.enum_map_snd (extractSpansFromText (concatRuns c))] at hpw
        exact (List.pairwise_map).mp hpw
      exact h1.map _ (fun x y h => h)

theorem spansOfContainer_bounds (hashFn : Str → Str) (c : Container) :
    ∀ sp ∈ spansOfContainer hashFn c,
      (sp.blank_kind = "empty_cell".toList →
        sp.start_char = 0 ∧ sp.end_char = 0) ∧
      (sp.blank_kind ≠ "empty_cell".toList →
        sp.start_char < sp.end_char ∧
          sp.end_char ≤ (concatRuns c).length) := by
  intro sp hsp
  simp only [spansOfContainer] at hsp
  split at hsp
  · rename_i htext
    split at hsp
    · rw [List.mem_singleton] at hsp
      subst hsp
      constructor
      · intro _; exact ⟨rfl, rfl⟩
      · intro hne
        exact absurd rfl hne
    · simp at hsp
  · split at hsp
    · simp at hsp
    · obtain ⟨it, hit, he⟩ := List.mem_map.mp hsp
      have hsnd : it.2 ∈ extractSpansFromText (concatRuns c) :=
        snd_mem_of_mem_enum hit
      have hb := extractRaw_bounds (concatRuns c) it.2 hsnd
      have hkind : sp.blank_kind = it.2.2.2 := by rw [← he]
      have hstart : sp.start_char = it.2.1 := by rw [← he]
      have hend : sp.end_char = it.2.2.1 := by rw [← he]
      constructor
      · intro hcell
        exfalso
        rw [extractRaw_mem] at hsnd
        simp only [List.mem_append] at hsnd
        rw [hkind] at hcell
        rcases hsnd with h | h | h | h
        all_goals {
          rw [(mem_triMap h).2] at hcell
          exact absurd hcell (by decide)
        }
      · intro _
        rw [hstart, hend]
        exact hb

/-- C3 is refuted as stated: an entirely empty table cell produces a span of
blank kind `empty_cell` whose character range is the degenerate `[0, 0)`,
violating `start < end`. -/
theorem empty_cell_span_degenerate_counterexample :
    ∃ sp ∈ extractFieldSpans (fun _ => []) [fixEmptyCellCont],
      sp.blank_kind = "empty_cell".toList ∧ ¬ sp.start_char < sp.end_char := by
  decide

/-- C3 (amended): every span produced by the extractor for a container is
either the empty-cell marker, whose range is the degenerate `[0, 0)`, or a
pattern span satisfying `start < end` within the bounds of the container's
concatenated run text; and the spans extracted from one container are
mutually non-overlapping (across all blank kinds).  `extractFieldSpans` is
the concatenation of `spansOfContainer` over the containers. -/
theorem extracted_spans_invariant (hashFn : Str → Str) (c : Container) :
    (∀ sp ∈ spansOfContainer hashFn c,
      (sp.blank_kind = "empty_cell".toList →
        sp.start_char = 0 ∧ sp.end_char = 0) ∧
      (sp.blank_kind ≠ "empty_cell".toList →
        sp.start_char < sp.end_char ∧
          sp.end_char ≤ (concatRuns c).length)) ∧
    List.Pairwise spanNoOverlap (spansOfContainer hashFn c) ∧
    (∀ cs, extractFieldSpans hashFn cs = cs.flatMap (spansOfContainer hashFn)) :=
  ⟨spansOfContainer_bounds hashFn c, spansOfContainer_pairwise hashFn c,
    fun _ => rfl⟩

/-- Witness for the amended C3 at the empty-cell fixture. -/
theorem extracted_spans_invariant_witness :
    fixEmptyCellSpan.start_char = 0 ∧ fixEmptyCellSpan.end_char = 0 :=
  ((extracted_spans_invariant (fun _ => []) fixEmptyCellCont).1
    fixEmptyCellSpan (by decide)).1 (by decide)

/-- C4 is refuted as stated: a maximal run of only two underscores already
yields a span (the pattern threshold is 2, not 3), and a maximal run of
three dots yields no span (the dot threshold is 4, not 3). -/
theorem blank_run_threshold_counterexample :
    (∃ sp ∈ spansOfContainer (fun _ => []) fixUndCont,
        sp.blank_kind = "underscore".toList ∧
          sp.end_char - sp.start_char = 2) ∧
    (maxRunAt '.' (concatRuns fixDotsCont) 1 4 ∧ 3 ≤ 4 - 1) ∧
    ¬ (∃ sp ∈ spansOfContainer (fun _ => []) fixDotsCont,
        sp.blank_kind = "dots".toList) := by
  refine ⟨?_, by decide, ?_⟩
  · have h := (spansOfContainer_kind_mem (fun _ => []) fixUndCont
      "underscore".toList (by decide) 2 4).mpr
    have hmem : ((2 : Nat), (4 : Nat)) ∈ underscoreSpans (concatRuns fixUndCont) :=
      (runScan_top_iff '_' 2 (by omega) _ 2 4).mpr (by decide)
    obtain ⟨sp, hsp, hk, hs, he⟩ := h ((extractRaw_kind_mem_und _ 2 4).mpr hmem)
    exact ⟨sp, hsp, hk, by omega⟩
  · rintro ⟨sp, hsp, hk⟩
    have h := (spansOfContainer_kind_mem (fun _ => []) fixDotsCont
      "dots".toList (by decide) sp.start_char sp.end_char).mp
      ⟨sp, hsp, hk, rfl, rfl⟩
    have h2 := (runScan_top_iff '.' 4 (by omega) _ _ _).mp
      ((extractRaw_kind_mem_dots _ _ _).mp h)
    obtain ⟨⟨hab, hlen, hchars, _, _⟩, hk4⟩ := h2
    have hs1 : sp.start_char = 0 ∨ sp.start_char = 1 := by
      have hlen5 : (concatRuns fixDotsCont).length = 5 := by decide
      omega
    rcases hs1 with hs1 | hs1
    · have := hchars 1 (by omega) (by omega)
      rw [hs1] at hchars
      have h0 := hchars 0 (by omega) (by omega)
      have h0v : (concatRuns fixDotsCont)[0]? = some 'a' := by decide
      rw [h0v] at h0
      exact absurd (Option.some.inj h0) (by decide)
    · have hlen5 : (concatRuns fixDotsCont).length = 5 := by decide
      have he5 : sp.end_char = 5 := by omega
      have h4 := hchars 4 (by omega) (by omega)
      have h4v : (concatRuns fixDotsCont)[4]? = some 'b' := by decide
      rw [h4v] at h4
      exact absurd (Option.some.inj h4) (by decide)

/-- C4 (amended): in every container's concatenated run text, the extractor
yields an underscore span exactly at each maximal run of at least 2
underscores, and a dots span exactly at each maximal run of at least 4 dot
characters (the source thresholds are `_\x7b2,\x7d` and `\.\x7b4,\x7d`). -/
theorem blank_run_thresholds (hashFn : Str → Str) (c : Container) (a b : Nat) :
    ((∃ sp ∈ spansOfContainer hashFn c,
        sp.blank_kind = "underscore".toList ∧
          sp.start_char = a ∧ sp.end_char = b) ↔
      (maxRunAt '_' (concatRuns c) a b ∧ 2 ≤ b - a)) ∧
    ((∃ sp ∈ spansOfContainer hashFn c,
        sp.blank_kind = "dots".toList ∧ sp.start_char = a ∧ sp.end_char = b) ↔
      (maxRunAt '.' (concatRuns c) a b ∧ 4 ≤ b - a)) := by
  constructor
  · rw [spansOfContainer_kind_mem hashFn c _ (by decide) a b,
      extractRaw_kind_mem_und]
    exact runScan_top_iff '_' 2 (by omega) _ a b
  · rw [spansOfContainer_kind_mem hashFn c _ (by decide) a b,
      extractRaw_kind_mem_dots]
    exact runScan_top_iff '.' 4 (by omega) _ a b

/-- Witness for the amended C4: the two-underscore run of the fixture
produces exactly the span `[2, 4)`. -/
theorem blank_run_thresholds_witness :
    ∃ sp ∈ spansOfContainer (fun _ => []) fixUndCont,
      sp.blank_kind = "underscore".toList ∧
        sp.start_char = 2 ∧ sp.end_char = 4 :=
  (blank_run_thresholds (fun _ => []) fixUndCont 2 4).1.mpr (by decide)

/-- C6: `infer_slot_type` returns the first matching keyword family in the
fixed priority order checkbox > coded-number (CPV) > date-parts > date >
percent > money > address > role > person > organization > number >
unknown: each category is returned exactly when its family matches and no
higher-priority family does, and a span matching no family yields
`UNKNOWN`. -/
theorem infer_slot_type_priority (sp : FieldSpan) :
    (condCheckbox sp = true → inferSlotType sp = .CHECKBOX_GROUP) ∧
    (condCheckbox sp = false → condCpv sp = true →
      inferSlotType sp = .CPV_CODE) ∧
    (condCheckbox sp = false → condCpv sp = false → condDateParts sp = true →
      inferSlotType sp = .DATE_PARTS) ∧
    (condCheckbox sp = false → condCpv sp = false → condDateParts sp = false →
      condDate sp = true → inferSlotType sp = .DATE) ∧
    (condCheckbox sp = false → condCpv sp = false → condDateParts sp = false →
      condDate sp = false → condPercent sp = true →
      inferSlotType sp = .PERCENT) ∧
    (condCheckbox sp = false → condCpv sp = false → condDateParts sp = false →
      condDate sp = false → condPercent sp = false → condMoney sp = true →
      inferSlotType sp = .MONEY) ∧
    (condCheckbox sp = false → condCpv sp = false → condDateParts sp = false →
      condDate sp = false → condPercent sp = false → condMoney sp = false →
      condAddress sp = true → inferSlotType sp = .ORG_ADDRESS) ∧
    (condCheckbox sp = false → condCpv sp = false → condDateParts sp = false →
      condDate sp = false → condPercent sp = false → condMoney sp = false →
      condAddress sp = false → condRole sp = true →
      inferSlotType sp = .PERSON_ROLE) ∧
    (condCheckbox sp = false → condCpv sp = false → condDateParts sp = false →
      condDate sp = false → condPercent sp = false → condMoney sp = false →
      condAddress sp = false → condRole sp = false → condPerson sp = true →
      inferSlotType sp = .PERSON_NAME) ∧
    (condCheckbox sp = false → condCpv sp = false → condDateParts sp = false →
      condDate sp = false → condPercent sp = false → condMoney sp = false →
      condAddress sp = false → condRole sp = false → condPerson sp = false →
      condOrg sp = true → inferSlotType sp = .ORG_NAME) ∧
    (condCheckbox sp = false → condCpv sp = false → condDateParts sp = false →
      condDate sp = false → condPercent sp = false → condMoney sp = false →
      condAddress sp = false → condRole sp = false → condPerson sp = false →
      condOrg sp = false → condNumber sp = true →
      inferSlotType sp = .NUMBER) ∧
    (condCheckbox sp = false → condCpv sp = false → condDateParts sp = false →
      condDate sp = false → condPercent sp = false → condMoney sp = false →
      condAddress sp = false → condRole sp = false → condPerson sp = false →
      condOrg sp = false → condNumber sp = false →
      inferSlotType sp = .UNKNOWN) := by
  unfold inferSlotType
  refine ⟨?_, ?_, ?_, ?_, ?_, ?_, ?_, ?_, ?_, ?_, ?_, ?_⟩ <;>
    intros <;> simp_all

/-- Witness for C6: a span whose context matches both the date family
("data") and the money family ("lei") is typed `DATE`, the
higher-priority category. -/
theorem infer_slot_type_priority_witness :
    inferSlotType
      { span_id := [], paragraph_idx := none, span_index := 0, start_char := 0,
        end_char := 0, blank_kind := "underscore".toList,
        raw_placeholder_text := [],
        left_context := "pana la data de ".toList,
        right_context := " lei".toList, paragraph_text := [],
        location := fixLocBody, run_idx_start := none,
        run_idx_end := none } = .DATE :=
  ((((infer_slot_type_priority _).2).2).2).1 (by decide) (by decide)
    (by decide) (by decide)

/-- C2: a zero-length or inverted span, a span outside the bounds of the
concatenated run text, or a failure to locate the runs owning the span's
endpoints makes `replace_span_across_runs` return failure with every run
text unchanged. -/
theorem replace_span_failure_no_mutation (runs : List Str)
    (spanStart spanEnd : Int) (repl : Str)
    (h : spanStart ≥ spanEnd ∨ spanStart < 0 ∨
      spanEnd > ((runs.flatten).length : Int) ∨
      (locateRuns spanStart spanEnd (runIntervals runs 0) none 0).1 = none ∨
      (locateRuns spanStart spanEnd (runIntervals runs 0) none 0).2 = none) :
    replaceSpanAcrossRuns runs spanStart spanEnd repl = (false, runs) := by
  simp only [replaceSpanAcrossRuns]
  split
  · rfl
  · rename_i h1
    split
    · rfl
    · rename_i h2
      simp only [Bool.or_eq_true, not_or, decide_eq_true_eq] at h1 h2
      push_neg at h1 h2
      split
      · rename_i si ei hloc
        exfalso
        rcases h with h | h | h | h | h
        · exact absurd h (by omega)
        · exact absurd h (by omega)
        · exact absurd h (by omega)
        · rw [hloc] at h
          cases h
        · rw [hloc] at h
          cases h
      · rfl

/-- Witness for C2 at a concrete inverted span. -/
theorem replace_span_failure_no_mutation_witness :
    replaceSpanAcrossRuns ["ab".toList] 2 1 "x".toList =
      (false, ["ab".toList]) :=
  replace_span_failure_no_mutation _ _ _ _ (Or.inl (by decide))


theorem prefixLen_zero (runs : List Str) : prefixLen runs 0 = 0 := rfl

theorem prefixLen_cons (r : Str) (rest : List Str) (i : Nat) :
    prefixLen (r :: rest) (i + 1) = r.length + prefixLen rest i := by
  simp [prefixLen, List.take_succ_cons]

theorem prefixLen_one (r : Str) (rest : List Str) :
    prefixLen (r :: rest) 1 = r.length := by
  simpa [prefixLen_zero] using prefixLen_cons r rest 0

theorem prefixLen_mono (runs : List Str) {i j : Nat} (h : i ≤ j) :
    prefixLen runs i ≤ prefixLen runs j := by
  induction runs generalizing i j with
  | nil => simp [prefixLen]
  | cons r rest ih =>
    cases i with
    | zero => simp [prefixLen_zero]
    | succ i0 =>
      cases j with
      | zero => omega
      | succ j0 =>
        rw [prefixLen_cons, prefixLen_cons]
        have := ih (Nat.le_of_succ_le_succ h)
        omega

theorem runIntervals_length : ∀ (runs : List Str) (off : Nat),
    (runIntervals runs off).length = runs.length := by
  intro runs
  induction runs with
  | nil => intro off; rfl
  | cons r rest ih => intro off; simp [runIntervals, ih]

theorem splitOnChar_no_sep (sep : Char) (s : Str) (h : sep ∉ s) :
    splitOnChar sep s = [s] := by
  induction s with
  | nil => rfl
  | cons c rest ih =>
    simp only [List.mem_cons, not_or] at h
    simp only [splitOnChar]
    rw [if_neg (fun hc => h.1 hc.symm), ih h.2]

theorem joinSegs_single (s : Str) : joinSegs [s] = s := by
  simp [joinSegs]

/-- The end-locating phase of the run-location loop: once the start index is
recorded, the loop scans on until the interval holding `endc` and breaks. -/
theorem locate_end (sStart : Int) (endc : Nat) :
    ∀ (runs : List Str) (off idx0 si0 : Nat),
      off < endc → endc ≤ off + (runs.flatten).length →
      ∃ ei, locateRuns sStart (endc : Int) (runIntervals runs off)
          (some si0) idx0 = (some si0, some (idx0 + ei)) ∧
        ei < runs.length ∧ off + prefixLen runs ei < endc ∧
        endc ≤ off + prefixLen runs (ei + 1) := by
  intro runs
  induction runs with
  | nil =>
    intro off idx0 si0 h1 h2
    simp only [List.flatten_nil, List.length_nil] at h2
    omega
  | cons r rest ih =>
    intro off idx0 si0 h1 h2
    by_cases hbrk : endc ≤ off + r.length
    · refine ⟨0, ?_, by simp, by simpa [prefixLen_zero] using h1,
        by simpa [prefixLen_one] using hbrk⟩
      simp only [runIntervals, locateRuns]
      split_ifs with hA hB hB
      · exact hB.1.elim
      · simp
      · exact hB.1.elim
      · exfalso; apply hA; exact ⟨by omega, by omega⟩
    · push_neg at hbrk
      have hlen : endc ≤ (off + r.length) + (rest.flatten).length := by
        simp only [List.flatten_cons, List.length_append] at h2
        omega
      obtain ⟨ei, heq, h3, h4, h5⟩ := ih (off + r.length) (idx0 + 1) si0 hbrk hlen
      refine ⟨ei + 1, ?_, by simpa using Nat.succ_lt_succ h3,
        by rw [prefixLen_cons]; omega, by rw [prefixLen_cons]; omega⟩
      have key : locateRuns sStart (endc : Int) (runIntervals (r :: rest) off)
          (some si0) idx0 =
          locateRuns sStart (endc : Int) (runIntervals rest (off + r.length))
            (some si0) (idx0 + 1) := by
        simp only [runIntervals, locateRuns]
        split_ifs with hA hB hB
        · exact hB.1.elim
        · exfalso; rcases hA with ⟨-, hc⟩; omega
        · exact hB.1.elim
        · rfl
      rw [key, heq]
      simp only [Prod.mk.injEq, Option.some.injEq, true_and]
      omega

/-- The full run-location loop: for a span inside the concatenated text it
finds both the start run and the end run, bracketed by run prefix sums. -/
theorem locate_some (start endc : Nat) :
    ∀ (runs : List Str) (off idx0 : Nat),
      off ≤ start → start < endc → endc ≤ off + (runs.flatten).length →
      ∃ si ei, locateRuns (start : Int) (endc : Int) (runIntervals runs off)
          none idx0 = (some (idx0 + si), some (idx0 + ei)) ∧
        si ≤ ei ∧ ei < runs.length ∧
        off + prefixLen runs si ≤ start ∧
        start < off + prefixLen runs (si + 1) ∧
        off + prefixLen runs ei < endc ∧
        endc ≤ off + prefixLen runs (ei + 1) := by
  intro runs
  induction runs with
  | nil =>
    intro off idx0 h0 h1 h2
    simp only [List.flatten_nil, List.length_nil] at h2
    omega
  | cons r rest ih =>
    intro off idx0 h0 h1 h2
    by_cases hin : start < off + r.length
    · by_cases hbrk : endc ≤ off + r.length
      · refine ⟨0, 0, ?_, Nat.le_refl 0, by simp,
          by simpa [prefixLen_zero] using h0,
          by simpa [prefixLen_one] using hin,
          by simpa [prefixLen_zero] using Nat.lt_of_le_of_lt h0 h1,
          by simpa [prefixLen_one] using hbrk⟩
        have key : locateRuns (start : Int) (endc : Int)
            (runIntervals (r :: rest) off) none idx0 = (some idx0, some idx0) := by
          simp only [runIntervals, locateRuns]
          split_ifs with hA hB hB
          · rfl
          · exact absurd ⟨trivial, by omega, by omega⟩ hB
          · exfalso; apply hA; exact ⟨by omega, by omega⟩
          · exfalso; apply hA; exact ⟨by omega, by omega⟩
        rw [key]
        simp
      · push_neg at hbrk
        have hlen : endc ≤ (off + r.length) + (rest.flatten).length := by
          simp only [List.flatten_cons, List.length_append] at h2
          omega
        obtain ⟨ei, heq, h3, h4, h5⟩ :=
          locate_end (start : Int) endc rest (off + r.length) (idx0 + 1) idx0 hbrk hlen
        refine ⟨0, ei + 1, ?_, Nat.zero_le _,
          by simpa using Nat.succ_lt_succ h3,
          by simpa [prefixLen_zero] using h0,
          by simpa [prefixLen_one] using hin,
          by rw [prefixLen_cons]; omega,
          by rw [prefixLen_cons]; omega⟩
        have key : locateRuns (start : Int) (endc : Int)
            (runIntervals (r :: rest) off) none idx0 =
            locateRuns (start : Int) (endc : Int)
              (runIntervals rest (off + r.length)) (some idx0) (idx0 + 1) := by
          simp only [runIntervals, locateRuns]
          split_ifs with hA hB hB
          · exfalso; rcases hA with ⟨-, hc⟩; omega
          · exfalso; rcases hA with ⟨-, hc⟩; omega
          · rfl
          · exact absurd ⟨trivial, by omega, by omega⟩ hB
        rw [key, heq]
        simp only [Prod.mk.injEq, Option.some.injEq]
        omega
    · push_neg at hin
      have hlen : endc ≤ (off + r.length) + (rest.flatten).length := by
        simp only [List.flatten_cons, List.length_append] at h2
        omega
      obtain ⟨si, ei, heq, hsiei, h3, hs1, hs2, he1, he2⟩ :=
        ih (off + r.length) (idx0 + 1) hin h1 hlen
      refine ⟨si + 1, ei + 1, ?_, by omega,
        by simpa using Nat.succ_lt_succ h3,
        by rw [prefixLen_cons]; omega,
        by rw [prefixLen_cons]; omega,
        by rw [prefixLen_cons]; omega,
        by rw [prefixLen_cons]; omega⟩
      have key : locateRuns (start : Int) (endc : Int)
          (runIntervals (r :: rest) off) none idx0 =
          locateRuns (start : Int) (endc : Int)
            (runIntervals rest (off + r.length)) none (idx0 + 1) := by
        simp only [runIntervals, locateRuns]
        split_ifs with hA hB hB
        · exfalso; rcases hA with ⟨-, hc⟩; omega
        · exfalso; rcases hA with ⟨-, hc⟩; omega
        · exfalso; rcases hB with ⟨-, -, hc⟩; omega
        · rfl
      rw [key, heq]
      simp only [Prod.mk.injEq, Option.some.injEq]
      omega

theorem replChain_cons (f : Nat × ((Nat × Nat) × Str) → Str) (r : Str)
    (rest : List Str) (off idx : Nat) :
    (List.enumFrom idx ((runIntervals (r :: rest) off).zip (r :: rest))).map f =
      f (idx, ((off, off + r.length), r)) ::
        (List.enumFrom (idx + 1)
          ((runIntervals rest (off + r.length)).zip rest)).map f := by
  simp [runIntervals, List.enumFrom, List.zip]

/-- Runs strictly after the end run are left unchanged by the replacement
loop. -/
theorem replMap_after (si ei : Nat) (a b : Int) (segs : List Str) :
    ∀ (runs : List Str) (off idx : Nat), ei < idx →
      (List.enumFrom idx ((runIntervals runs off).zip runs)).map
        (replRun si ei a b segs) = runs := by
  intro runs
  induction runs with
  | nil => intro off idx h; simp [runIntervals]
  | cons r rest ih =>
    intro off idx h
    rw [replChain_cons, ih (off + r.length) (idx + 1) (by omega)]
    simp [replRun, h]

/-- From the end run on (start run already passed), the replacement loop
keeps exactly the text from `endc` onwards. -/
theorem replMap_end (si ei : Nat) (a : Int) (endc : Nat) (segs : List Str) :
    ∀ (runs : List Str) (off idx : Nat),
      si < idx → idx ≤ ei → ei - idx < runs.length →
      off + prefixLen runs (ei - idx) < endc →
      endc ≤ off + prefixLen runs (ei - idx + 1) →
      ((List.enumFrom idx ((runIntervals runs off).zip runs)).map
        (replRun si ei a (endc : Int) segs)).flatten =
        (runs.flatten).drop (endc - off) := by
  intro runs
  induction runs with
  | nil =>
    intro off idx h1 h2 h3 h4 h5
    simp at h3
  | cons r rest ih =>
    intro off idx h1 h2 h3 h4 h5
    simp only [List.length_cons] at h3
    rw [replChain_cons]
    by_cases hie : idx = ei
    · rw [replMap_after si ei a (endc : Int) segs rest (off + r.length) (idx + 1)
        (by omega)]
      have hd0 : ei - idx = 0 := by omega
      have hp1 : prefixLen (r :: rest) (ei - idx + 1) = r.length := by
        rw [hd0]; exact prefixLen_one r rest
      have h4' : off < endc := by
        rw [hd0] at h4; simpa [prefixLen_zero] using h4
      have h5' : endc ≤ off + r.length := by omega
      have cei1 : ¬ (ei < si) := by omega
      have cei2 : ¬ (ei = si) := by omega
      have hfe : replRun si ei a (endc : Int) segs
          (idx, ((off, off + r.length), r)) = r.drop (endc - off) := by
        simp [replRun, hie, cei1, cei2]
      rw [hfe]
      have hz : endc - off - r.length = 0 := by omega
      simp [List.drop_append_eq_append_drop, hz]
    · have hk : ei - idx = (ei - (idx + 1)) + 1 := by omega
      have hk2 : ei - idx + 1 = (ei - (idx + 1) + 1) + 1 := by omega
      rw [hk, prefixLen_cons] at h4
      rw [hk2, prefixLen_cons] at h5
      have c1 : ¬ (idx < si) := by omega
      have c2 : ¬ (ei < idx) := by omega
      have c3 : ¬ (idx = si) := by omega
      have c4 : ¬ (idx = ei) := by omega
      have hf0 : replRun si ei a (endc : Int) segs
          (idx, ((off, off + r.length), r)) = [] := by
        simp [replRun, c1, c2, c3, c4]
      rw [hf0]
      simp only [List.flatten_cons, List.nil_append]
      rw [ih (off + r.length) (idx + 1) (by omega) (by omega) (by omega)
        (by omega) (by omega)]
      have hrl : r.length ≤ endc - off := by omega
      simp [List.drop_append_eq_append_drop, List.drop_eq_nil_of_le hrl,
        Nat.sub_sub]

/-- Main frame lemma of the replacement loop: from the start run on, the
new flattened text is the old prefix before `start`, then the replacement,
then the old text from `endc` on. -/
theorem replMap_main (si ei start endc : Nat) (segs : List Str) (repl : Str)
    (hseg : joinSegs segs = repl) :
    ∀ (runs : List Str) (off idx : Nat),
      idx ≤ si → si ≤ ei → ei - idx < runs.length →
      off + prefixLen runs (si - idx) ≤ start →
      start < off + prefixLen runs (si - idx + 1) →
      off + prefixLen runs (ei - idx) < endc →
      endc ≤ off + prefixLen runs (ei - idx + 1) →
      ((List.enumFrom idx ((runIntervals runs off).zip runs)).map
        (replRun si ei (start : Int) (endc : Int) segs)).flatten =
        (runs.flatten).take (start - off) ++ repl ++
          (runs.flatten).drop (endc - off) := by
  intro runs
  induction runs with
  | nil =>
    intro off idx h1 h2 h3 hs1 hs2 he1 he2
    simp at h3
  | cons r rest ih =>
    intro off idx h1 h2 h3 hs1 hs2 he1 he2
    simp only [List.length_cons] at h3
    rw [replChain_cons]
    by_cases his : idx = si
    · by_cases hee : si = ei
      · have hd0 : si - idx = 0 := by omega
        have hd0e : ei - idx = 0 := by omega
        have hp0 : prefixLen (r :: rest) (si - idx) = 0 := by rw [hd0]; rfl
        have hp1 : prefixLen (r :: rest) (si - idx + 1) = r.length := by
          rw [hd0]; simpa using prefixLen_one r rest
        have hq0 : prefixLen (r :: rest) (ei - idx) = 0 := by rw [hd0e]; rfl
        have hq1 : prefixLen (r :: rest) (ei - idx + 1) = r.length := by
          rw [hd0e]; simpa using prefixLen_one r rest
        have hs2' : start < off + r.length := by omega
        have he2' : endc ≤ off + r.length := by omega
        rw [replMap_after si ei (start : Int) (endc : Int) segs rest
          (off + r.length) (idx + 1) (by omega)]
        have cx : idx = ei := by omega
        have hfe : replRun si ei (start : Int) (endc : Int) segs
            (idx, ((off, off + r.length), r)) =
            r.take (start - off) ++ repl ++ r.drop (endc - off) := by
          simp [replRun, cx, hee, hseg]
        rw [hfe]
        have hts : start - off - r.length = 0 := by omega
        have hte : endc - off - r.length = 0 := by omega
        simp [List.take_append_eq_append_take, List.drop_append_eq_append_drop,
          hts, hte]
      · have hd0 : si - idx = 0 := by omega
        have hp0 : prefixLen (r :: rest) (si - idx) = 0 := by rw [hd0]; rfl
        have hp1 : prefixLen (r :: rest) (si - idx + 1) = r.length := by
          rw [hd0]; simpa using prefixLen_one r rest
        have hs2' : start < off + r.length := by omega
        have hkE : ei - idx = (ei - (idx + 1)) + 1 := by omega
        have hkE2 : ei - idx + 1 = (ei - (idx + 1) + 1) + 1 := by omega
        rw [hkE, prefixLen_cons] at he1
        rw [hkE2, prefixLen_cons] at he2
        have cne : ¬ (si = ei) := hee
        have cgt : ¬ (ei < si) := by omega
        have hfe : replRun si ei (start : Int) (endc : Int) segs
            (idx, ((off, off + r.length), r)) =
            r.take (start - off) ++ repl := by
          simp [replRun, his, cne, cgt, hseg]
        rw [hfe]
        simp only [List.flatten_cons]
        rw [replMap_end si ei (start : Int) endc segs rest (off + r.length)
          (idx + 1) (by omega) (by omega) (by omega) (by omega) (by omega)]
        have hts : start - off - r.length = 0 := by omega
        have hdr : r.drop (endc - off) = [] := List.drop_eq_nil_of_le (by omega)
        simp [List.take_append_eq_append_take, List.drop_append_eq_append_drop,
          hts, hdr, Nat.sub_sub]
    · have hkS : si - idx = (si - (idx + 1)) + 1 := by omega
      have hkS2 : si - idx + 1 = (si - (idx + 1) + 1) + 1 := by omega
      have hkE : ei - idx = (ei - (idx + 1)) + 1 := by omega
      have hkE2 : ei - idx + 1 = (ei - (idx + 1) + 1) + 1 := by omega
      rw [hkS, prefixLen_cons] at hs1
      rw [hkS2, prefixLen_cons] at hs2
      rw [hkE, prefixLen_cons] at he1
      rw [hkE2, prefixLen_cons] at he2
      have c : idx < si := by omega
      have hf : replRun si ei (start : Int) (endc : Int) segs
          (idx, ((off, off + r.length), r)) = r := by
        simp [replRun, c]
      rw [hf]
      simp only [List.flatten_cons]
      rw [ih (off + r.length) (idx + 1) (by omega) h2 (by omega) (by omega)
        (by omega) (by omega) (by omega)]
      have htk : r.take (start - off) = r := List.take_of_length_le (by omega)
      have hdr : r.drop (endc - off) = [] := List.drop_eq_nil_of_le (by omega)
      simp [List.take_append_eq_append_take, List.drop_append_eq_append_drop,
        htk, hdr, Nat.sub_sub]

/-- C10: frame property of the commit primitive.  For runs concatenating to
text `T`, a span `[start, endc)` with `0 ≤ start < endc ≤ T.length`, and a
replacement containing no newline, `replace_span_across_runs` succeeds, the
concatenated run text afterwards equals
`T.take start ++ repl ++ T.drop endc` (all characters outside the span,
including text sharing a run with the span, are preserved), and the number
of runs is unchanged. -/
theorem replace_span_frame (runs : List Str) (start endc : Nat) (repl : Str)
    (h1 : start < endc) (h2 : endc ≤ (runs.flatten).length)
    (hnl : '\n' ∉ repl) :
    (replaceSpanAcrossRuns runs (start : Int) (endc : Int) repl).1 = true ∧
    ((replaceSpanAcrossRuns runs (start : Int) (endc : Int) repl).2).flatten =
      (runs.flatten).take start ++ repl ++ (runs.flatten).drop endc ∧
    ((replaceSpanAcrossRuns runs (start : Int) (endc : Int) repl).2).length =
      runs.length := by
  obtain ⟨si, ei, hloc, hsiei, heilen, hs1, hs2, he1, he2⟩ :=
    locate_some start endc runs 0 0 (Nat.zero_le start) h1 (by simpa using h2)
  simp only [Nat.zero_add] at hloc
  have hne : runs.isEmpty = false := by
    cases runs with
    | nil => simp at h2; omega
    | cons a l => rfl
  have hseg : joinSegs (splitOnChar '\n' repl) = repl := by
    rw [splitOnChar_no_sep '\n' repl hnl]; exact joinSegs_single repl
  simp only [replaceSpanAcrossRuns]
  split
  · rename_i hcond
    exfalso
    simp only [hne, Bool.false_or, decide_eq_true_eq, ge_iff_le] at hcond
    omega
  · split
    · rename_i hcond
      exfalso
      simp only [Bool.or_eq_true, decide_eq_true_eq] at hcond
      rcases hcond with hc | hc
      · omega
      · have : ((runs.flatten.length : Nat) : Int) < (endc : Int) := hc
        omega
    · split
      · rename_i si0 ei0 hloc0
        rw [hloc] at hloc0
        simp only [Prod.mk.injEq, Option.some.injEq] at hloc0
        obtain ⟨hsi0, hei0⟩ := hloc0
        subst hsi0
        subst hei0
        refine ⟨rfl, ?_, ?_⟩
        · have hmain := replMap_main si ei start endc (splitOnChar '\n' repl)
            repl hseg runs 0 0 (Nat.zero_le si) hsiei
            (by simpa using heilen) (by simpa using hs1) (by simpa using hs2)
            (by simpa using he1) (by simpa using he2)
          show ((List.enumFrom 0 ((runIntervals runs 0).zip runs)).map
            (replRun si ei (start : Int) (endc : Int)
              (splitOnChar '\n' repl))).flatten = _
          simpa using hmain
        · show ((List.enumFrom 0 ((runIntervals runs 0).zip runs)).map
            (replRun si ei (start : Int) (endc : Int)
              (splitOnChar '\n' repl))).length = runs.length
          simp [List.enumFrom_length, runIntervals_length]
      · rename_i hbad
        exact absurd hloc (hbad si ei)

/-- Witness for C10: replacing characters 1–4 of the two-run paragraph
`"ab" ++ "cde"` with `"XY"`. -/
theorem replace_span_frame_witness :
    (replaceSpanAcrossRuns ["ab".toList, "cde".toList]
        ((1 : Nat) : Int) ((4 : Nat) : Int) "XY".toList).1 = true ∧
    ((replaceSpanAcrossRuns ["ab".toList, "cde".toList]
        ((1 : Nat) : Int) ((4 : Nat) : Int) "XY".toList).2).flatten =
      (["ab".toList, "cde".toList].flatten).take 1 ++ "XY".toList ++
        (["ab".toList, "cde".toList].flatten).drop 4 ∧
    ((replaceSpanAcrossRuns ["ab".toList, "cde".toList]
        ((1 : Nat) : Int) ((4 : Nat) : Int) "XY".toList).2).length =
      ["ab".toList, "cde".toList].length :=
  replace_span_frame ["ab".toList, "cde".toList] 1 4 "XY".toList
    (by decide) (by decide) (by decide)


/-- C8 counterexample probe -/
theorem key_reuse_counterexample :
    (((alookup "a1".toList (mapFieldSpans fixOraZ none [fixSpanA, fixSpanB]
        fixDataZ).candidates).getD []).head?.map Cand.key = some "camp".toList) ∧
    (((alookup "a2".toList (mapFieldSpans fixOraZ none [fixSpanA, fixSpanB]
        fixDataZ).candidates).getD []).head?.map Cand.key = some "camp".toList) ∧
    isRepeatableKey [("camp".toList, normalizeText "camp".toList)]
      "camp".toList = false ∧
    jaccard (tokensOf (fixSpanA.left_context ++ ' ' :: fixSpanA.right_context))
      (tokensOf (fixSpanB.left_context ++ ' ' :: fixSpanB.right_context)) <
      (3 : ℚ)/10 ∧
    mget (mapFieldSpans fixOraZ none [fixSpanA, fixSpanB] fixDataZ).mapping
      "a1".toList = some "camp".toList ∧
    mget (mapFieldSpans fixOraZ none [fixSpanA, fixSpanB] fixDataZ).mapping
      "a2".toList = some "camp".toList := by
  decide

theorem cbkStep_cases (dataNorm : List (Str × PyVal)) (expectedType : Option Str)
    (sp : FieldSpan) (usedKeys : List (Str × List Str))
    (repeatableKeys : List Str) (ctxTokens : List Str)
    (acc : Option Str × ℚ × List TMEntry) (c : Cand) :
    ((cbkStep dataNorm expectedType sp usedKeys repeatableKeys ctxTokens
        acc c).1 = acc.1 ∧
     (cbkStep dataNorm expectedType sp usedKeys repeatableKeys ctxTokens
        acc c).2.1 = acc.2.1) ∨
    (candPasses dataNorm expectedType sp c = true ∧
     (cbkStep dataNorm expectedType sp usedKeys repeatableKeys ctxTokens
        acc c).1 = some c.key ∧
     (cbkStep dataNorm expectedType sp usedKeys repeatableKeys ctxTokens
        acc c).2.1 = effScore usedKeys repeatableKeys ctxTokens c) := by
  simp only [cbkStep]
  split_ifs with h1 h2 h3 h4
  · exact Or.inl ⟨rfl, rfl⟩
  · exact Or.inl ⟨rfl, rfl⟩
  · exact Or.inl ⟨rfl, rfl⟩
  · refine Or.inr ⟨?_, rfl, rfl⟩
    simp [candPasses, h1, h2]
    simpa using h3
  · exact Or.inl ⟨rfl, rfl⟩

theorem cbkStep_mono (dataNorm : List (Str × PyVal)) (expectedType : Option Str)
    (sp : FieldSpan) (usedKeys : List (Str × List Str))
    (repeatableKeys : List Str) (ctxTokens : List Str)
    (acc : Option Str × ℚ × List TMEntry) (c : Cand) :
    acc.2.1 ≤ (cbkStep dataNorm expectedType sp usedKeys repeatableKeys
      ctxTokens acc c).2.1 := by
  simp only [cbkStep]
  split_ifs with h1 h2 h3 h4
  · exact le_refl _
  · exact le_refl _
  · exact le_refl _
  · exact le_of_lt h4
  · exact le_refl _

theorem cbkStep_ge (dataNorm : List (Str × PyVal)) (expectedType : Option Str)
    (sp : FieldSpan) (usedKeys : List (Str × List Str))
    (repeatableKeys : List Str) (ctxTokens : List Str)
    (acc : Option Str × ℚ × List TMEntry) (c : Cand)
    (h : candPasses dataNorm expectedType sp c = true) :
    effScore usedKeys repeatableKeys ctxTokens c ≤
      (cbkStep dataNorm expectedType sp usedKeys repeatableKeys ctxTokens
        acc c).2.1 := by
  simp only [candPasses, Bool.and_eq_true, decide_eq_true_eq,
    Bool.not_eq_true'] at h
  obtain ⟨⟨hk, hld⟩, htc⟩ := h
  simp only [cbkStep]
  split_ifs with h1 h2 h3 h4
  · exact absurd h1 hk
  · rw [hld] at h2; cases h2
  · rw [htc] at h3; simp at h3
  · exact le_refl _
  · exact le_of_not_lt h4

theorem cbkFold_mono (dataNorm : List (Str × PyVal)) (expectedType : Option Str)
    (sp : FieldSpan) (usedKeys : List (Str × List Str))
    (repeatableKeys : List Str) (ctxTokens : List Str) :
    ∀ (cands : List Cand) (acc : Option Str × ℚ × List TMEntry),
      acc.2.1 ≤ (cands.foldl (cbkStep dataNorm expectedType sp usedKeys
        repeatableKeys ctxTokens) acc).2.1 := by
  intro cands
  induction cands with
  | nil => intro acc; exact le_refl _
  | cons c cs ih =>
    intro acc
    exact le_trans
      (cbkStep_mono dataNorm expectedType sp usedKeys repeatableKeys
        ctxTokens acc c)
      (ih _)

theorem cbkFold_ge (dataNorm : List (Str × PyVal)) (expectedType : Option Str)
    (sp : FieldSpan) (usedKeys : List (Str × List Str))
    (repeatableKeys : List Str) (ctxTokens : List Str) :
    ∀ (cands : List Cand) (acc : Option Str × ℚ × List TMEntry) (d : Cand),
      d ∈ cands → candPasses dataNorm expectedType sp d = true →
      effScore usedKeys repeatableKeys ctxTokens d ≤
        (cands.foldl (cbkStep dataNorm expectedType sp usedKeys
          repeatableKeys ctxTokens) acc).2.1 := by
  intro cands
  induction cands with
  | nil => intro acc d hd; cases hd
  | cons c cs ih =>
    intro acc d hd hp
    rcases List.mem_cons.mp hd with rfl | hd2
    · exact le_trans
        (cbkStep_ge dataNorm expectedType sp usedKeys repeatableKeys
          ctxTokens acc d hp)
        (cbkFold_mono dataNorm expectedType sp usedKeys repeatableKeys
          ctxTokens cs _)
    · exact ih _ d hd2 hp

theorem cbkFold_key (dataNorm : List (Str × PyVal)) (expectedType : Option Str)
    (sp : FieldSpan) (usedKeys : List (Str × List Str))
    (repeatableKeys : List Str) (ctxTokens : List Str) :
    ∀ (cands : List Cand) (acc : Option Str × ℚ × List TMEntry),
      ((cands.foldl (cbkStep dataNorm expectedType sp usedKeys repeatableKeys
          ctxTokens) acc).1 = acc.1 ∧
       (cands.foldl (cbkStep dataNorm expectedType sp usedKeys repeatableKeys
          ctxTokens) acc).2.1 = acc.2.1) ∨
      ∃ d ∈ cands, candPasses dataNorm expectedType sp d = true ∧
        (cands.foldl (cbkStep dataNorm expectedType sp usedKeys repeatableKeys
          ctxTokens) acc).1 = some d.key ∧
        (cands.foldl (cbkStep dataNorm expectedType sp usedKeys repeatableKeys
          ctxTokens) acc).2.1 = effScore usedKeys repeatableKeys ctxTokens d := by
  intro cands
  induction cands with
  | nil => intro acc; exact Or.inl ⟨rfl, rfl⟩
  | cons c cs ih =>
    intro acc
    rcases ih (cbkStep dataNorm expectedType sp usedKeys repeatableKeys
        ctxTokens acc c) with ⟨hf1, hf2⟩ | ⟨d, hdm, hdp, hdk, hds⟩
    · rcases cbkStep_cases dataNorm expectedType sp usedKeys repeatableKeys
          ctxTokens acc c with ⟨hs1, hs2⟩ | ⟨hp, hk, hs⟩
      · exact Or.inl ⟨by rw [List.foldl_cons, hf1, hs1],
          by rw [List.foldl_cons, hf2, hs2]⟩
      · exact Or.inr ⟨c, List.mem_cons_self c cs, hp,
          by rw [List.foldl_cons, hf1, hk],
          by rw [List.foldl_cons, hf2, hs]⟩
    · exact Or.inr ⟨d, List.mem_cons_of_mem c hdm, hdp,
        by rw [List.foldl_cons]; exact hdk,
        by rw [List.foldl_cons]; exact hds⟩

/-- C8 (amended): the reuse penalty of `map_field_spans` is score-only, so
the selection loop still picks a greedy maximum of the penalized score: if
some passing candidate scores strictly above the candidate carrying key
`c.key` (keys being distinct), the loop does not select `c.key`. -/
theorem choose_best_key_argmax (dataNorm : List (Str × PyVal))
    (expectedType : Option Str) (sp : FieldSpan)
    (usedKeys : List (Str × List Str)) (repeatableKeys : List Str)
    (ctxTokens : List Str) (cands : List Cand) (c cAlt : Cand)
    (hnd : (cands.map Cand.key).Nodup) (hc : c ∈ cands) (hcAlt : cAlt ∈ cands)
    (hpass : candPasses dataNorm expectedType sp cAlt = true)
    (heff : effScore usedKeys repeatableKeys ctxTokens c <
      effScore usedKeys repeatableKeys ctxTokens cAlt) :
    (chooseBestKey dataNorm expectedType sp usedKeys repeatableKeys ctxTokens
      cands).1 ≠ some c.key := by
  intro hcontra
  simp only [chooseBestKey] at hcontra
  rcases cbkFold_key dataNorm expectedType sp usedKeys repeatableKeys ctxTokens
      cands (none, -1, []) with ⟨hf1, -⟩ | ⟨d, hdm, hdp, hdk, hds⟩
  · rw [hf1] at hcontra
    cases hcontra
  · have hdc : d = c := by
      apply List.inj_on_of_nodup_map hnd hdm hc
      rw [hdk] at hcontra
      exact Option.some.inj hcontra
    subst hdc
    have hge := cbkFold_ge dataNorm expectedType sp usedKeys repeatableKeys
      ctxTokens cands (none, -1, []) cAlt hcAlt hpass
    rw [hds] at hge
    exact absurd heff (not_lt.mpr hge)

/-- Witness for the amended C8 theorem: with two passing candidates of
scores 1 and 2 and no used keys, the loop does not pick the key scoring 1. -/
theorem choose_best_key_argmax_witness :
    (chooseBestKey fixDataW none fixSpanA [] [] []
      [{ key := "k".toList, score := 1 }, { key := "m".toList, score := 2 }]).1 ≠
      some "k".toList :=
  choose_best_key_argmax fixDataW none fixSpanA [] [] []
    [{ key := "k".toList, score := 1 }, { key := "m".toList, score := 2 }]
    { key := "k".toList, score := 1 } { key := "m".toList, score := 2 }
    (by decide) (by decide) (by decide) (by decide) (by decide)


/-- C5: with no external inference capability, the pipeline is
deterministic: two runs on the same document and data record produce the
same span identifiers, the same candidate rankings and the same final
span-to-key mapping (the embedded functions are pure; span identifiers
are the pure hash `mkSlotId` of location, contexts, kind and raw text). -/
theorem pipeline_deterministic (hashFn : Str → Str) (ora : MapOracles)
    (doc doc2 : List Container) (dataNorm dataNorm2 : List (Str × PyVal))
    (hdoc : doc = doc2) (hdata : dataNorm = dataNorm2) :
    (extractFieldSpans hashFn doc).map FieldSpan.span_id =
      (extractFieldSpans hashFn doc2).map FieldSpan.span_id ∧
    (mapFieldSpans ora none (extractFieldSpans hashFn doc) dataNorm).candidates =
      (mapFieldSpans ora none (extractFieldSpans hashFn doc2)
        dataNorm2).candidates ∧
    (mapFieldSpans ora none (extractFieldSpans hashFn doc) dataNorm).mapping =
      (mapFieldSpans ora none (extractFieldSpans hashFn doc2)
        dataNorm2).mapping := by
  subst hdoc
  subst hdata
  exact ⟨rfl, rfl, rfl⟩

/-- Witness for C5 on a concrete one-paragraph document. -/
theorem pipeline_deterministic_witness :
    (extractFieldSpans (fun _ => "h".toList) [fixUndCont]).map
        FieldSpan.span_id =
      (extractFieldSpans (fun _ => "h".toList) [fixUndCont]).map
        FieldSpan.span_id ∧
    (mapFieldSpans fixOraZ none (extractFieldSpans (fun _ => "h".toList)
        [fixUndCont]) fixDataZ).candidates =
      (mapFieldSpans fixOraZ none (extractFieldSpans (fun _ => "h".toList)
        [fixUndCont]) fixDataZ).candidates ∧
    (mapFieldSpans fixOraZ none (extractFieldSpans (fun _ => "h".toList)
        [fixUndCont]) fixDataZ).mapping =
      (mapFieldSpans fixOraZ none (extractFieldSpans (fun _ => "h".toList)
        [fixUndCont]) fixDataZ).mapping :=
  pipeline_deterministic (fun _ => "h".toList) fixOraZ [fixUndCont]
    [fixUndCont] fixDataZ fixDataZ rfl rfl

/-- C9: an absent or unavailable model yields no suggestion and no error:
`_llm_choose_key` returns `none` for an absent or unavailable model, a
returned suggestion can only arise from an available model whose response
parsed to a JSON object carrying a string `best_key` inside the candidate
list (so every malformed response yields `none`), and
`llm_suggest_candidates` returns the empty suggestion map when the model
is absent or unavailable. -/
theorem llm_fallback_no_suggestions
    (jl : Str → Option PyJson) (m : HFM) (span : FieldSpan) (slotType : Str)
    (candKeys : List Str) (anchors : List AnchorM) (dataKeys : List Str)
    (hm : List (Str × Bool)) (bs tk : Nat) :
    llmChooseKey jl none span slotType candKeys = none ∧
    (m.availableB = false →
      llmChooseKey jl (some m) span slotType candKeys = none) ∧
    (∀ r, llmChooseKey jl (some m) span slotType candKeys = some r →
      m.availableB = true ∧
      ∃ fields, jl (m.generate (chPrompt span slotType candKeys)) =
          some (.jObj fields) ∧
        alookup "best_key".toList fields = some (.jStr r.1) ∧
        candKeys.contains r.1 = true) ∧
    llmSuggestCandidates jl anchors dataKeys hm none bs tk = .ok [] ∧
    (m.availableB = false →
      llmSuggestCandidates jl anchors dataKeys hm (some m) bs tk = .ok []) := by
  refine ⟨rfl, ?_, ?_, rfl, ?_⟩
  · intro hav
    simp [llmChooseKey, hav]
  · intro r hr
    simp only [llmChooseKey] at hr
    by_cases hav : m.availableB
    · refine ⟨hav, ?_⟩
      rw [if_neg (by simp [hav])] at hr
      split at hr
      · rename_i fields hj
        split at hr
        · rename_i bk hb
          split at hr
          · rename_i hctn
            cases hr
            exact ⟨fields, hj, hb, hctn⟩
          · cases hr
        · cases hr
      · cases hr
    · rw [if_pos (by simp [Bool.not_eq_true'] at hav ⊢; exact hav)] at hr
      cases hr
  · intro hav
    simp [llmSuggestCandidates, hav]

/-- Witness for C9: no JSON capability, empty prompts, unavailable model. -/
theorem llm_fallback_no_suggestions_witness :
    llmChooseKey (fun _ => none) none fixSpanA "UNKNOWN".toList
      ["camp".toList] = none ∧
    llmChooseKey (fun _ => none) (some fixHFMOff) fixSpanA "UNKNOWN".toList
      ["camp".toList] = none ∧
    llmSuggestCandidates (fun _ => none) [] [] [] none 8 5 = .ok [] ∧
    llmSuggestCandidates (fun _ => none) [] [] [] (some fixHFMOff) 8 5 =
      .ok [] := by
  have h := llm_fallback_no_suggestions (fun _ => none) fixHFMOff fixSpanA
    "UNKNOWN".toList ["camp".toList] [] [] [] 8 5
  exact ⟨h.1, h.2.1 rfl, h.2.2.2.1, h.2.2.2.2 rfl⟩


/-- Under a `DURATION_DAYS`/date or `PERSON_NAME`/money mismatch the loop
body raises before touching any state: it returns the same error for every
state and container index. -/
theorem fillOneSpan_mismatch_error (ctx : FillCtx) (sp : FieldSpan)
    (key : Str) (value : PyVal) (hid : sp.span_id ≠ [])
    (hkey : (alookup sp.span_id ctx.mapping).getD none = some key)
    (hkne : key ≠ [])
    (hval : (if key = "__computed__".toList then
      alookup sp.span_id ctx.computedValues
      else alookup key ctx.dataNorm) = some value)
    (hvn : value ≠ .vNone)
    (hmm : (alookup sp.span_id ctx.expectedTypes =
          some "DURATION_DAYS".toList ∧ isDate value = true) ∨
      (alookup sp.span_id ctx.expectedTypes =
          some "PERSON_NAME".toList ∧ isMoney value = true)) :
    ∃ e, ∀ (st : FillState) (cidx : Nat),
      fillOneSpan ctx st cidx sp = .error e := by
  have hred : (match (some value : Option PyVal) with
      | some PyVal.vNone => none
      | other => other) = some value := by
    cases value <;> simp_all
  rcases hmm with ⟨het, hd⟩ | ⟨het, hmn⟩
  · refine ⟨"DATE value in DURATION_DAYS span".toList, ?_⟩
    intro st cidx
    simp only [fillOneSpan, hkey, hval, hred, het]
    rw [if_neg hid, if_neg hkne,
      if_pos (show True ∧ isDate value = true from ⟨trivial, hd⟩)]
  · refine ⟨"MONEY value in Subsemnatul span".toList, ?_⟩
    intro st cidx
    have hne : ¬ ((some ("PERSON_NAME".toList) : Option Str) =
        some "DURATION_DAYS".toList ∧ isDate value = true) := by
      rintro ⟨h1, -⟩
      have h2 : ("PERSON_NAME".toList : Str) = "DURATION_DAYS".toList :=
        Option.some.inj h1
      exact absurd h2 (by decide)
    simp only [fillOneSpan, hkey, hval, hred, het]
    rw [if_neg hid, if_neg hkne, if_neg hne,
      if_pos (show True ∧ isMoney value = true from ⟨trivial, hmn⟩)]

/-- A span whose loop body always raises makes the per-container fold
raise. -/
theorem fillSpansGo_error (ctx : FillCtx) (sp : FieldSpan) (e : Str)
    (hsp : ∀ (st : FillState) (cidx : Nat),
      fillOneSpan ctx st cidx sp = .error e) :
    ∀ (l : List FieldSpan) (st : FillState) (cidx : Nat), sp ∈ l →
      ∃ e2, fillSpansGo ctx st cidx l = .error e2 := by
  intro l
  induction l with
  | nil => intro st cidx h; cases h
  | cons h t ih =>
    intro st cidx hmem
    rcases List.mem_cons.mp hmem with rfl | hmem2
    · exact ⟨e, by simp [fillSpansGo, hsp st cidx]⟩
    · cases hf : fillOneSpan ctx st cidx h with
      | error e3 => exact ⟨e3, by simp [fillSpansGo, hf]⟩
      | ok st2 =>
        obtain ⟨e2, he2⟩ := ih st2 cidx hmem2
        exact ⟨e2, by simp [fillSpansGo, hf, he2]⟩

/-- A span whose loop body always raises makes the whole grouped fill
raise. -/
theorem fillGroups_error (ctx : FillCtx) (sp : FieldSpan) (e : Str)
    (hsp : ∀ (st : FillState) (cidx : Nat),
      fillOneSpan ctx st cidx sp = .error e) :
    ∀ (groups : List (Nat × List FieldSpan)) (st : FillState)
      (g : Nat × List FieldSpan), g ∈ groups → sp ∈ g.2 →
      ∃ e2, fillGroups ctx st groups = .error e2 := by
  intro groups
  induction groups with
  | nil => intro st g h; cases h
  | cons g0 rest ih =>
    intro st g hg hmem
    rcases List.mem_cons.mp hg with rfl | hg2
    · have hmem2 : sp ∈ sortSpansDesc g.2 := by
        have hperm := List.perm_insertionSort
          (fun a b : FieldSpan => b.start_char ≤ a.start_char) g.2
        exact (hperm.mem_iff).mpr hmem
      obtain ⟨e2, he2⟩ :=
        fillSpansGo_error ctx sp e hsp (sortSpansDesc g.2) st g.1 hmem2
      exact ⟨e2, by simp [fillGroups, he2]⟩
    · cases hf : fillSpansGo ctx st g0.1 (sortSpansDesc g0.2) with
      | error e3 => exact ⟨e3, by simp [fillGroups, hf]⟩
      | ok st2 =>
        obtain ⟨e2, he2⟩ := ih st2 g hg2 hmem
        exact ⟨e2, by simp [fillGroups, hf, he2]⟩

/-- `groupAdd` puts the appended span into some group. -/
theorem groupAdd_self : ∀ (groups : List (Nat × List FieldSpan)) (k : Nat)
    (sp : FieldSpan), ∃ g ∈ groupAdd groups k sp, sp ∈ g.2 := by
  intro groups
  induction groups with
  | nil => intro k sp; exact ⟨(k, [sp]), by simp [groupAdd], by simp⟩
  | cons g0 rest ih =>
    intro k sp
    by_cases h : g0.1 = k
    · exact ⟨(k, g0.2 ++ [sp]), by simp [groupAdd, h], by simp⟩
    · obtain ⟨g, hg, hmem⟩ := ih k sp
      refine ⟨g, ?_, hmem⟩
      simp only [groupAdd, if_neg h]
      exact List.mem_cons_of_mem g0 hg

/-- `groupAdd` keeps every span already present in some group. -/
theorem groupAdd_mono : ∀ (groups : List (Nat × List FieldSpan)) (k : Nat)
    (sp2 x : FieldSpan), (∃ g ∈ groups, x ∈ g.2) →
    ∃ g ∈ groupAdd groups k sp2, x ∈ g.2 := by
  intro groups
  induction groups with
  | nil =>
    intro k sp2 x h
    obtain ⟨g, hg, -⟩ := h
    cases hg
  | cons g0 rest ih =>
    intro k sp2 x h
    obtain ⟨g, hg, hx⟩ := h
    by_cases hk : g0.1 = k
    · rcases List.mem_cons.mp hg with rfl | hg2
      · exact ⟨(k, g.2 ++ [sp2]), by simp [groupAdd, hk],
          List.mem_append_left _ hx⟩
      · refine ⟨g, ?_, hx⟩
        simp only [groupAdd, if_pos hk]
        exact List.mem_cons_of_mem _ hg2
    · rcases List.mem_cons.mp hg with rfl | hg2
      · refine ⟨g, ?_, hx⟩
        simp only [groupAdd, if_neg hk]
        exact List.mem_cons_self g _
      · obtain ⟨g2, hg2b, hx2⟩ := ih k sp2 x ⟨g, hg2, hx⟩
        refine ⟨g2, ?_, hx2⟩
        simp only [groupAdd, if_neg hk]
        exact List.mem_cons_of_mem g0 hg2b

/-- One grouping step keeps every span already present. -/
theorem sbcStep_mono (lmap : List (LocationD × Nat))
    (gs : List (Nat × List FieldSpan)) (sp2 x : FieldSpan)
    (h : ∃ g ∈ gs, x ∈ g.2) : ∃ g ∈ sbcStep lmap gs sp2, x ∈ g.2 := by
  simp only [sbcStep]
  split_ifs with h1
  · exact h
  · cases alookup sp2.location lmap with
    | none => exact h
    | some cidx => exact groupAdd_mono gs cidx sp2 x h

/-- The grouping fold keeps every span already present. -/
theorem sbcFold_mono (lmap : List (LocationD × Nat)) (x : FieldSpan) :
    ∀ (spans : List FieldSpan) (acc : List (Nat × List FieldSpan)),
      (∃ g ∈ acc, x ∈ g.2) →
      ∃ g ∈ spans.foldl (sbcStep lmap) acc, x ∈ g.2 := by
  intro spans
  induction spans with
  | nil => intro acc h; exact h
  | cons h t ih =>
    intro acc hacc
    exact ih (sbcStep lmap acc h) (sbcStep_mono lmap acc h x hacc)

/-- Every located non-checkbox span ends up in some group of the grouping
fold. -/
theorem sbcFold_mem (lmap : List (LocationD × Nat)) (sp : FieldSpan)
    (hcb : sp.blank_kind ≠ "checkbox".toList)
    (hloc : (alookup sp.location lmap).isSome = true) :
    ∀ (spans : List FieldSpan) (acc : List (Nat × List FieldSpan)),
      sp ∈ spans → ∃ g ∈ spans.foldl (sbcStep lmap) acc, sp ∈ g.2 := by
  intro spans
  induction spans with
  | nil => intro acc h; cases h
  | cons h t ih =>
    intro acc hmem
    rcases List.mem_cons.mp hmem with rfl | hmem2
    · obtain ⟨cidx, hcidx⟩ := Option.isSome_iff_exists.mp hloc
      have hstep : sbcStep lmap acc sp = groupAdd acc cidx sp := by
        simp only [sbcStep]
        rw [if_neg hcb, hcidx]
      rw [List.foldl_cons, hstep]
      exact sbcFold_mono lmap sp t (groupAdd acc cidx sp)
        (groupAdd_self acc cidx sp)
    · exact ih (sbcStep lmap acc h) hmem2

/-- C1: a semantic type mismatch aborts the whole fill.  If a span of the
document carries a mapped key whose value is date-shaped while the span's
expected type is `DURATION_DAYS`, or money-shaped while the expected type
is `PERSON_NAME`, then `fill_spans_in_docx` raises (returns the fatal
error) instead of writing or merely flagging the value. -/
theorem type_mismatch_aborts_fill (doc : List Container)
    (spans : List FieldSpan) (mapping : List (Str × Option Str))
    (dataNorm computedValues : List (Str × PyVal))
    (expectedTypes : List (Str × Str)) (sp : FieldSpan) (key : Str)
    (value : PyVal)
    (hsp : sp ∈ spans)
    (hcb : sp.blank_kind ≠ "checkbox".toList)
    (hloc : (alookup sp.location (locationMap doc)).isSome = true)
    (hid : sp.span_id ≠ [])
    (hkey : (alookup sp.span_id mapping).getD none = some key)
    (hkne : key ≠ [])
    (hval : (if key = "__computed__".toList then
      alookup sp.span_id computedValues
      else alookup key dataNorm) = some value)
    (hvn : value ≠ .vNone)
    (hmm : (alookup sp.span_id expectedTypes =
          some "DURATION_DAYS".toList ∧ isDate value = true) ∨
      (alookup sp.span_id expectedTypes =
          some "PERSON_NAME".toList ∧ isMoney value = true)) :
    ∃ e, fillSpansInDocx doc spans mapping dataNorm computedValues
      expectedTypes = .error e := by
  obtain ⟨e, he⟩ := fillOneSpan_mismatch_error
    { mapping := mapping, dataNorm := dataNorm,
      computedValues := computedValues, expectedTypes := expectedTypes }
    sp key value hid hkey hkne hval hvn hmm
  obtain ⟨g, hg, hmemg⟩ := sbcFold_mem (locationMap doc) sp hcb hloc spans [] hsp
  obtain ⟨e2, he2⟩ := fillGroups_error
    { mapping := mapping, dataNorm := dataNorm,
      computedValues := computedValues, expectedTypes := expectedTypes }
    sp e he (spansByContainer doc spans)
    { containers := doc, inserted := [], filled := 0, suspicious := [] }
    g (by simpa [spansByContainer] using hg) hmemg
  exact ⟨e2, by simpa [fillSpansInDocx] using he2⟩

/-- Witness for C1: a date value mapped into a `DURATION_DAYS` span. -/
theorem type_mismatch_aborts_fill_witness :
    ∃ e, fillSpansInDocx [fixUndCont] [fixSpanA]
      [("a1".toList, some "camp".toList)]
      [("camp".toList, .vStr "2024-01-01".toList)] []
      [("a1".toList, "DURATION_DAYS".toList)] = .error e :=
  type_mismatch_aborts_fill [fixUndCont] [fixSpanA]
    [("a1".toList, some "camp".toList)]
    [("camp".toList, .vStr "2024-01-01".toList)] []
    [("a1".toList, "DURATION_DAYS".toList)] fixSpanA "camp".toList
    (.vStr "2024-01-01".toList)
    (by decide) (by decide) (by decide) (by decide) (by decide) (by decide)
    rfl (fun h => PyVal.noConfusion h)
    (Or.inl ⟨rfl, by decide⟩)


theorem strLt_trans : ∀ (a b c : Str), strLt a b = true → strLt b c = true →
    strLt a c = true := by
  intro a
  induction a with
  | nil =>
    intro b c hab hbc
    cases b with
    | nil => simp [strLt] at hab
    | cons x bs =>
      cases c with
      | nil => simp [strLt] at hbc
      | cons y cs => rfl
  | cons ch as ih =>
    intro b c hab hbc
    cases b with
    | nil => simp [strLt] at hab
    | cons x bs =>
      cases c with
      | nil => simp [strLt] at hbc
      | cons y cs =>
        simp only [strLt, Bool.or_eq_true, Bool.and_eq_true,
          decide_eq_true_eq] at hab hbc ⊢
        rcases hab with h1 | ⟨h1, h2⟩
        · rcases hbc with h3 | ⟨h3, h4⟩
          · exact Or.inl (lt_trans h1 h3)
          · exact Or.inl (h3 ▸ h1)
        · rcases hbc with h3 | ⟨h3, h4⟩
          · exact Or.inl (h1 ▸ h3)
          · exact Or.inr ⟨h1.trans h3, ih bs cs h2 h4⟩

theorem strLt_total3 : ∀ (a b : Str),
    strLt a b = true ∨ a = b ∨ strLt b a = true := by
  intro a
  induction a with
  | nil =>
    intro b
    cases b with
    | nil => exact Or.inr (Or.inl rfl)
    | cons x bs => exact Or.inl rfl
  | cons ch as ih =>
    intro b
    cases b with
    | nil => exact Or.inr (Or.inr rfl)
    | cons x bs =>
      rcases lt_trichotomy ch x with h | h | h
      · exact Or.inl (by simp [strLt, h])
      · rcases ih bs with h2 | h2 | h2
        · exact Or.inl (by simp [strLt, h, h2])
        · exact Or.inr (Or.inl (by rw [h, h2]))
        · exact Or.inr (Or.inr (by simp [strLt, h.symm, h2]))
      · exact Or.inr (Or.inr (by simp [strLt, h]))

theorem strLe_total (a b : Str) : strLe a b = true ∨ strLe b a = true := by
  rcases strLt_total3 a b with h | h | h
  · exact Or.inl (by simp [strLe, h])
  · exact Or.inl (by simp [strLe, h])
  · exact Or.inr (by simp [strLe, h])

theorem strLe_trans (a b c : Str) (h1 : strLe a b = true)
    (h2 : strLe b c = true) : strLe a c = true := by
  simp only [strLe, Bool.or_eq_true, decide_eq_true_eq] at h1 h2 ⊢
  rcases h1 with h1 | rfl
  · rcases h2 with h2 | rfl
    · exact Or.inl (strLt_trans a b c h1 h2)
    · exact Or.inl h1
  · exact h2

theorem candLe_trans (a b c : Cand) (h1 : candLe a b = true)
    (h2 : candLe b c = true) : candLe a c = true := by
  simp only [candLe, Bool.or_eq_true, Bool.and_eq_true,
    decide_eq_true_eq] at h1 h2 ⊢
  rcases h1 with h1 | ⟨h1, h1b⟩
  · rcases h2 with h2 | ⟨h2, h2b⟩
    · exact Or.inl (lt_trans h2 h1)
    · exact Or.inl (h2 ▸ h1)
  · rcases h2 with h2 | ⟨h2, h2b⟩
    · exact Or.inl (by rw [h1]; exact h2)
    · exact Or.inr ⟨h1.trans h2, strLe_trans _ _ _ h1b h2b⟩

theorem candLe_total (a b : Cand) : candLe a b = true ∨ candLe b a = true := by
  rcases lt_trichotomy a.score b.score with h | h | h
  · exact Or.inr (by simp [candLe, h])
  · rcases strLe_total a.key b.key with h2 | h2
    · exact Or.inl (by simp [candLe, h, h2])
    · exact Or.inr (by simp [candLe, h.symm, h2])
  · exact Or.inl (by simp [candLe, h])

/-- C7: the candidate scorer is stable and bounded.  `_candidate_scores`
returns a list in which every earlier candidate strictly outscores every
later one or ties with it under ascending lexical key order, the list has
at most 5 entries, and two calls on identical inputs return the identical
ordering. -/
theorem candidate_scores_sorted (tsr : Str → Str → ℚ) (slot : FieldSpan)
    (dataKeys : List Str) (dataNorm : List (Str × PyVal)) :
    (candidateScores tsr slot dataKeys dataNorm).Pairwise
      (fun a b => b.score < a.score ∨
        (a.score = b.score ∧ strLe a.key b.key = true)) ∧
    (candidateScores tsr slot dataKeys dataNorm).length ≤ 5 ∧
    candidateScores tsr slot dataKeys dataNorm =
      candidateScores tsr slot dataKeys dataNorm := by
  refine ⟨?_, ?_, rfl⟩
  · have hsort : ∀ (l : List Cand),
        (l.insertionSort (fun a b => candLe a b = true)).Pairwise
          (fun a b => candLe a b = true) := by
      intro l
      haveI : IsTotal Cand (fun a b => candLe a b = true) := ⟨candLe_total⟩
      haveI : IsTrans Cand (fun a b => candLe a b = true) := ⟨candLe_trans⟩
      exact List.sorted_insertionSort _ l
    simp only [candidateScores]
    refine List.Pairwise.sublist (List.take_sublist 5 _) ?_
    refine (hsort _).imp ?_
    intro a b h
    simpa only [candLe, Bool.or_eq_true, Bool.and_eq_true,
      decide_eq_true_eq] using h
  · simp only [candidateScores]
    exact List.length_take_le 5 _

end Docx
